/-
Verification of the arXiv-metadata ETL pipeline (collect / process / persist).

This file gives a shallow embedding of the core record-merge, type-conversion,
transformation and batch-dispatch logic of the repository
(src/process/writer.py and src/process/transformer.py), and proves or refutes
the frozen specification claims about them.

Modelling conventions:
  - Python values are modelled by the inductive type Value (None, str, numbers,
    bool, list, dict).  Python ints and floats are both modelled by a rational
    number (constructor Value.num); the storage engine's exact-decimal type is
    Value.dec.  Python dicts are modelled as insertion-ordered association
    lists with unique keys, which is exactly the observable behaviour of
    CPython dicts.
  - Fallible Python code (code that can raise an uncaught exception) is
    modelled with Option: a result of Option.none means the Python code raises.
  - Wall-clock inputs (pendulum.now, time.time) are passed in as explicit
    parameters.
-/
import Mathlib

set_option linter.unusedVariables false

/-- Model of a Python value as passed through the pipeline records. -/
inductive Value where
  | none
  | str (s : String)
  | num (q : ℚ)
  | dec (q : ℚ)
  | bool (b : Bool)
  | list (vs : List Value)
  | dict (fs : List (String × Value))

mutual

def valueBeq : Value → Value → Bool
  | .none, .none => true
  | .str a, .str b => a == b
  | .num a, .num b => a == b
  | .dec a, .dec b => a == b
  | .bool a, .bool b => a == b
  | .list a, .list b => valueListBeq a b
  | .dict a, .dict b => fieldsBeq a b
  | _, _ => false

def valueListBeq : List Value → List Value → Bool
  | [], [] => true
  | a :: as, b :: bs => valueBeq a b && valueListBeq as bs
  | _, _ => false

def fieldsBeq : List (String × Value) → List (String × Value) → Bool
  | [], [] => true
  | (k, v) :: as, (k2, v2) :: bs => k == k2 && valueBeq v v2 && fieldsBeq as bs
  | _, _ => false

end

mutual

theorem valueBeq_iff : ∀ a b : Value, valueBeq a b = true ↔ a = b
  | .none, .none => by simp [valueBeq]
  | .str a, .str b => by simp [valueBeq]
  | .num a, .num b => by simp [valueBeq]
  | .dec a, .dec b => by simp [valueBeq]
  | .bool a, .bool b => by simp [valueBeq]
  | .list a, .list b => by simp [valueBeq, valueListBeq_iff a b]
  | .dict a, .dict b => by simp [valueBeq, fieldsBeq_iff a b]
  | .none, .str _ => by simp [valueBeq]
  | .none, .num _ => by simp [valueBeq]
  | .none, .dec _ => by simp [valueBeq]
  | .none, .bool _ => by simp [valueBeq]
  | .none, .list _ => by simp [valueBeq]
  | .none, .dict _ => by simp [valueBeq]
  | .str _, .none => by simp [valueBeq]
  | .str _, .num _ => by simp [valueBeq]
  | .str _, .dec _ => by simp [valueBeq]
  | .str _, .bool _ => by simp [valueBeq]
  | .str _, .list _ => by simp [valueBeq]
  | .str _, .dict _ => by simp [valueBeq]
  | .num _, .none => by simp [valueBeq]
  | .num _, .str _ => by simp [valueBeq]
  | .num _, .dec _ => by simp [valueBeq]
  | .num _, .bool _ => by simp [valueBeq]
  | .num _, .list _ => by simp [valueBeq]
  | .num _, .dict _ => by simp [valueBeq]
  | .dec _, .none => by simp [valueBeq]
  | .dec _, .str _ => by simp [valueBeq]
  | .dec _, .num _ => by simp [valueBeq]
  | .dec _, .bool _ => by simp [valueBeq]
  | .dec _, .list _ => by simp [valueBeq]
  | .dec _, .dict _ => by simp [valueBeq]
  | .bool _, .none => by simp [valueBeq]
  | .bool _, .str _ => by simp [valueBeq]
  | .bool _, .num _ => by simp [valueBeq]
  | .bool _, .dec _ => by simp [valueBeq]
  | .bool _, .list _ => by simp [valueBeq]
  | .bool _, .dict _ => by simp [valueBeq]
  | .list _, .none => by simp [valueBeq]
  | .list _, .str _ => by simp [valueBeq]
  | .list _, .num _ => by simp [valueBeq]
  | .list _, .dec _ => by simp [valueBeq]
  | .list _, .bool _ => by simp [valueBeq]
  | .list _, .dict _ => by simp [valueBeq]
  | .dict _, .none => by simp [valueBeq]
  | .dict _, .str _ => by simp [valueBeq]
  | .dict _, .num _ => by simp [valueBeq]
  | .dict _, .dec _ => by simp [valueBeq]
  | .dict _, .bool _ => by simp [valueBeq]
  | .dict _, .list _ => by simp [valueBeq]

theorem valueListBeq_iff : ∀ a b : List Value, valueListBeq a b = true ↔ a = b
  | [], [] => by simp [valueListBeq]
  | a :: as, b :: bs => by
      simp [valueListBeq, valueBeq_iff a b, valueListBeq_iff as bs]
  | [], _ :: _ => by simp [valueListBeq]
  | _ :: _, [] => by simp [valueListBeq]

theorem fieldsBeq_iff : ∀ a b : List (String × Value), fieldsBeq a b = true ↔ a = b
  | [], [] => by simp [fieldsBeq]
  | (k, v) :: as, (k2, v2) :: bs => by
      simp [fieldsBeq, valueBeq_iff v v2, fieldsBeq_iff as bs]
  | [], _ :: _ => by simp [fieldsBeq]
  | _ :: _, [] => by simp [fieldsBeq]

end

instance : DecidableEq Value := fun a b =>
  decidable_of_iff _ (valueBeq_iff a b)

/-- A Python dict with string keys, as used for pipeline records: an
insertion-ordered association list with (by construction) unique keys. -/
abbrev Dict := List (String × Value)

/-- Python dict read access by key (first matching entry). -/
def dictGet (d : Dict) (k : String) : Option Value :=
  match d with
  | [] => Option.none
  | (k2, v) :: rest => if k2 = k then some v else dictGet rest k

/-- Python dict assignment: replace the value of an existing key in place,
otherwise append the new key at the end (CPython insertion order). -/
def dictSet (d : Dict) (k : String) (v : Value) : Dict :=
  match d with
  | [] => [(k, v)]
  | (k2, v2) :: rest => if k2 = k then (k2, v) :: rest else (k2, v2) :: dictSet rest k v

/-- Python d.get(k): the stored value, or None when the key is absent. -/
def pyGet (d : Dict) (k : String) : Value :=
  (dictGet d k).getD Value.none

/-- Python d.get(k, default). -/
def pyGetD (d : Dict) (k : String) (default : Value) : Value :=
  (dictGet d k).getD default

/-- Python truthiness of a modelled value. -/
def truthy : Value → Bool
  | .none => false
  | .str s => !(s == "")
  | .num q => !(q == 0)
  | .dec q => !(q == 0)
  | .bool b => b
  | .list vs => !(vs.isEmpty)
  | .dict fs => !(fs.isEmpty)

/-- A value is usable as a CPython set member / dict key exactly when it is
hashable; lists and dicts are unhashable and make set construction raise. -/
def pyHashable : Value → Bool
  | .list _ => false
  | .dict _ => false
  | _ => true

/-- First-occurrence deduplication (with an accumulator of already-seen
elements).  Models the CONTENTS of a CPython set built from a list; the
iteration order of a real set is hash-dependent, and first-occurrence order is
this model's choice of a definite order.  No claim settled below depends on
the order, only on the underlying deduplicated set. -/
def pyDedupAux (seen : List Value) : List Value → List Value
  | [] => []
  | v :: rest => if v ∈ seen then pyDedupAux seen rest else v :: pyDedupAux (v :: seen) rest

def pyDedup (l : List Value) : List Value :=
  pyDedupAux [] l

/-- Python list(set(l)): raises TypeError when an element is unhashable. -/
def pySetList (l : List Value) : Option (List Value) :=
  if l.all pyHashable then some (pyDedup l) else Option.none

/-- Python dict assignment for dicts whose keys are themselves values
(the version-label dict built inside the versions merge). -/
def pyDictInsert (m : List (Value × Value)) (k v : Value) : List (Value × Value) :=
  match m with
  | [] => [(k, v)]
  | (k2, v2) :: rest => if k2 = k then (k2, v) :: rest else (k2, v2) :: pyDictInsert rest k v

/-- Look a key up in a value-keyed dict. -/
def pyDictFind (m : List (Value × Value)) (k : Value) : Option Value :=
  match m with
  | [] => Option.none
  | (k2, v) :: rest => if k2 = k then some v else pyDictFind rest k

/-- Insert every entry of the second dict into the first, in order.  This is
the tail of the Python double-star merge of two dicts. -/
def pyDictUpdate (m : List (Value × Value)) (entries : List (Value × Value)) :
    List (Value × Value) :=
  entries.foldl (fun acc kv => pyDictInsert acc kv.1 kv.2) m

/-- Python v.get("version") inside the versions merge: reading an attribute of
a non-dict entry raises AttributeError, which _merge_records does not catch. -/
def versionLabel : Value → Option Value
  | .dict fs => some (pyGet fs "version")
  | _ => Option.none

/-- The dict comprehension in PersistenceWriter._merge_records (writer.py
lines 301 to 302): keep entries with a truthy version label, keyed by the
label, later entries with an equal label replacing earlier ones in place. -/
def buildVersionMapAux (acc : List (Value × Value)) :
    List Value → Option (List (Value × Value))
  | [] => some acc
  | v :: rest =>
      match versionLabel v with
      | Option.none => Option.none
      | some label =>
          buildVersionMapAux (if truthy label then pyDictInsert acc label v else acc) rest

def buildVersionMap (vs : List Value) : Option (List (Value × Value)) :=
  buildVersionMapAux [] vs

/-- The Python expression with a double-star merge of the two version maps
(writer.py line 305): all entries of the first dict, then all entries of the
second, later assignments winning. -/
def mergedVersionEntries (em nm : List (Value × Value)) : List (Value × Value) :=
  pyDictUpdate (pyDictUpdate [] em) nm

/-- One iteration of the merge loop of PersistenceWriter._merge_records
(writer.py lines 280 to 315) on the item kv of the incoming record.
The first parameter is the untouched existing record (the Python code reads
containment and values from existing, not from merged); the second is the
accumulator merged.  Option.none models an uncaught exception. -/
def mergeStep (existing : Dict) (merged : Dict) (key : String) (value : Value) :
    Option Dict :=
  if value = Value.none ∨ value = Value.str "" then
    some merged
  else if key = "authors" ∧ (dictGet existing "authors").isSome then
    if truthy value then some (dictSet merged key value) else some merged
  else if key = "categories" ∧ (dictGet existing "categories").isSome then
    match value, dictGet existing "categories" with
    | .list nv, some (.list ec) => do
        let cats ← pySetList (ec ++ nv)
        some (dictSet merged "categories" (.list cats))
    | _, _ => some (dictSet merged key value)
  else if key = "versions" ∧ (dictGet existing "versions").isSome then
    match value, dictGet existing "versions" with
    | .list nv, some (.list ev) => do
        let em ← buildVersionMap ev
        let nm ← buildVersionMap nv
        let vlist := (mergedVersionEntries em nm).map Prod.snd
        some (dictSet (dictSet merged "versions" (.list vlist))
          "version_count" (.num vlist.length))
    | _, _ => some (dictSet merged key value)
  else
    some (dictSet merged key value)

/-- The merge loop of PersistenceWriter._merge_records: iterate mergeStep over
the incoming record's items in insertion order, propagating an exception. -/
def mergeFold (existing : Dict) (merged : Dict) : List (String × Value) → Option Dict
  | [] => some merged
  | (j, u) :: rest =>
      match mergeStep existing merged j u with
      | Option.none => Option.none
      | some m2 => mergeFold existing m2 rest

/-- PersistenceWriter._merge_records (writer.py lines 265 to 320): start from
a copy of the existing record, run the merge loop over the incoming record's
items in insertion order, then unconditionally set last_processed from the
incoming record.  Option.none models an uncaught exception. -/
def mergeRecords (existing new : Dict) : Option Dict :=
  match mergeFold existing existing new with
  | Option.none => Option.none
  | some merged => some (dictSet merged "last_processed" (pyGet new "last_processed"))

example :
    mergeRecords
      [("versions", .list [.dict [("version", .str "v1"), ("created", .str "A")]])]
      [("versions", .list [.dict [("version", .str "v1"), ("created", .str "B")],
                           .dict [("version", .str "v2"), ("created", .str "C")]]),
       ("last_processed", .str "t")]
    = some
      [("versions", .list [.dict [("version", .str "v1"), ("created", .str "B")],
                           .dict [("version", .str "v2"), ("created", .str "C")]]),
       ("version_count", .num 2),
       ("last_processed", .str "t")] := by decide

theorem dictGet_dictSet_self (d : Dict) (k : String) (v : Value) :
    dictGet (dictSet d k v) k = some v := by
  induction d with
  | nil => simp [dictSet, dictGet]
  | cons kv rest ih =>
      obtain ⟨k2, v2⟩ := kv
      by_cases h : k2 = k
      · simp [dictSet, dictGet, h]
      · simp [dictSet, dictGet, h, ih]

theorem dictGet_dictSet_ne (d : Dict) (j k : String) (v : Value) (h : k ≠ j) :
    dictGet (dictSet d j v) k = dictGet d k := by
  induction d with
  | nil => simp [dictSet, dictGet, Ne.symm h]
  | cons kv rest ih =>
      obtain ⟨k2, v2⟩ := kv
      by_cases h2 : k2 = j
      · subst h2
        simp [dictSet, dictGet, Ne.symm h]
      · simp only [dictSet, if_neg h2]
        by_cases h3 : k2 = k
        · simp [dictGet, h3]
        · simp [dictGet, h3, ih]

theorem dictGet_eq_of_mem (d : Dict) (k : String) (u v : Value)
    (hnodup : (d.map Prod.fst).Nodup)
    (hget : dictGet d k = some v) (hmem : (k, u) ∈ d) : u = v := by
  induction d with
  | nil => cases hmem
  | cons kv rest ih =>
      obtain ⟨k2, v2⟩ := kv
      simp only [List.map_cons, List.nodup_cons] at hnodup
      rcases List.mem_cons.mp hmem with h | h
      · cases h
        simp only [dictGet, if_pos rfl] at hget
        exact (Option.some_inj.mp hget).symm ▸ rfl
      · by_cases hk : k2 = k
        · subst hk
          exact absurd (List.mem_map_of_mem Prod.fst h) hnodup.1
        · simp only [dictGet, if_neg hk] at hget
          exact ih hnodup.2 hget h

/-- The empty-value guard at the top of the merge loop: a null or
empty-string incoming value is skipped outright. -/
theorem mergeStep_of_empty (existing m : Dict) (j : String) (u : Value)
    (h : u = Value.none ∨ u = Value.str "") :
    mergeStep existing m j u = some m := by
  rcases h with h | h <;> simp [mergeStep, h]

/-- One merge-loop iteration only writes the item's own key, except that the
versions rule additionally writes version_count. -/
theorem mergeStep_get_ne {existing m m2 : Dict} {j : String} {u : Value} {k : String}
    (h : mergeStep existing m j u = some m2) (hkj : k ≠ j)
    (hvc : j = "versions" → k ≠ "version_count") :
    dictGet m2 k = dictGet m k := by
  unfold mergeStep at h
  split at h
  · cases h
    rfl
  · split at h
    · rename_i hcond
      split at h
      · cases h
        exact dictGet_dictSet_ne _ _ _ _ hkj
      · cases h
        rfl
    · split at h
      · rename_i hcond
        split at h
        · rename_i nv ec heq1 heq2
          cases hc : pySetList (ec ++ nv) with
          | none =>
              rw [hc] at h
              simp only [Option.bind_eq_bind, Option.none_bind] at h
              cases h
          | some cats =>
              rw [hc] at h
              simp only [Option.bind_eq_bind, Option.some_bind] at h
              cases h
              exact dictGet_dictSet_ne _ _ _ _ (hcond.1 ▸ hkj)
        · cases h
          exact dictGet_dictSet_ne _ _ _ _ hkj
      · split at h
        · rename_i hcond
          split at h
          · rename_i nv ev heq1 heq2
            cases hc : buildVersionMap ev with
            | none =>
                rw [hc] at h
                simp only [Option.bind_eq_bind, Option.none_bind] at h
                cases h
            | some em =>
                rw [hc] at h
                simp only [Option.bind_eq_bind, Option.some_bind] at h
                cases hc2 : buildVersionMap nv with
                | none =>
                    rw [hc2] at h
                    simp only [Option.bind_eq_bind, Option.none_bind] at h
                    cases h
                | some nm =>
                    rw [hc2] at h
                    simp only [Option.bind_eq_bind, Option.some_bind] at h
                    cases h
                    rw [dictGet_dictSet_ne _ _ _ _ (hvc hcond.1)]
                    exact dictGet_dictSet_ne _ _ _ _ (hcond.1 ▸ hkj)
          · cases h
            exact dictGet_dictSet_ne _ _ _ _ hkj
        · cases h
          exact dictGet_dictSet_ne _ _ _ _ hkj

/-- Over a run of merge-loop iterations in which every item carrying the key k
has an empty value, the merged value at k is untouched: k itself is skipped by
the empty-value guard, and any other key only ever writes itself or
version_count, which is excluded. -/
theorem mergeFold_get_of_empty (existing : Dict) (k : String)
    (hvc : k ≠ "version_count") :
    ∀ (items : List (String × Value)) (m m2 : Dict),
      mergeFold existing m items = some m2 →
      (∀ u, (k, u) ∈ items → u = Value.none ∨ u = Value.str "") →
      dictGet m2 k = dictGet m k := by
  intro items
  induction items with
  | nil =>
      intro m m2 h _
      cases h
      rfl
  | cons ju rest ih =>
      intro m m2 h hempty
      obtain ⟨j, u⟩ := ju
      rw [mergeFold] at h
      cases hstep : mergeStep existing m j u with
      | none => rw [hstep] at h; cases h
      | some m1 =>
          rw [hstep] at h
          have hrest : dictGet m2 k = dictGet m1 k :=
            ih m1 m2 h (fun u2 hu2 => hempty u2 (List.mem_cons_of_mem _ hu2))
          by_cases hkj : k = j
          · subst hkj
            have hu : u = Value.none ∨ u = Value.str "" :=
              hempty u (List.mem_cons_self _ _)
            rw [mergeStep_of_empty existing m k u hu] at hstep
            cases hstep
            exact hrest
          · rw [hrest]
            exact mergeStep_get_ne hstep hkj (fun _ => hvc)

/-- C2: for every pair of records and every field, an incoming value that is
null or the empty string never overwrites a stored non-empty value: the merged
record keeps the existing value.  The fields with explicit field-specific
rules of their own are excepted exactly as the claim allows: last_processed
(always taken from the incoming record) and version_count (recomputed by the
versions rule). -/
theorem mergeRecords_empty_incoming_preserves_existing
    (existing new merged : Dict) (k : String) (v w : Value)
    (hnodup : (new.map Prod.fst).Nodup)
    (hm : mergeRecords existing new = some merged)
    (hv : dictGet new k = some v)
    (hempty : v = Value.none ∨ v = Value.str "")
    (hw : dictGet existing k = some w)
    (hwne : truthy w = true)
    (hlp : k ≠ "last_processed")
    (hvc : k ≠ "version_count") :
    dictGet merged k = some w := by
  unfold mergeRecords at hm
  cases hfold : mergeFold existing existing new with
  | none => rw [hfold] at hm; cases hm
  | some m1 =>
      rw [hfold] at hm
      cases hm
      rw [dictGet_dictSet_ne _ "last_processed" k _ hlp]
      rw [mergeFold_get_of_empty existing k hvc new existing m1 hfold]
      · exact hw
      · intro u hu
        have huv := dictGet_eq_of_mem new k u v hnodup hv hu
        subst huv
        exact hempty

/-- Witness for C2 at a concrete input: an incoming empty title does not
erase the stored one. -/
theorem mergeRecords_empty_incoming_preserves_existing_witness :
    mergeRecords [("title", .str "Old title")]
      [("title", .str ""), ("last_processed", .str "t1")]
      = some [("title", .str "Old title"), ("last_processed", .str "t1")]
    ∧ dictGet [("title", .str "Old title"), ("last_processed", .str "t1")] "title"
      = some (.str "Old title") := by
  refine ⟨by decide, ?_⟩
  exact mergeRecords_empty_incoming_preserves_existing
    [("title", .str "Old title")]
    [("title", .str ""), ("last_processed", .str "t1")]
    [("title", .str "Old title"), ("last_processed", .str "t1")]
    "title" (.str "") (.str "Old title")
    (by decide) (by decide) (by decide) (by decide) (by decide) (by decide)
    (by decide) (by decide)

theorem pyDictFind_insert (m : List (Value × Value)) (k v x : Value) :
    pyDictFind (pyDictInsert m k v) x = if k = x then some v else pyDictFind m x := by
  induction m with
  | nil => simp [pyDictInsert, pyDictFind]
  | cons kv rest ih =>
      obtain ⟨k2, v2⟩ := kv
      by_cases h2 : k2 = k
      · subst h2
        by_cases h3 : k2 = x
        · simp [pyDictInsert, pyDictFind, h3]
        · simp [pyDictInsert, pyDictFind, h3]
      · simp only [pyDictInsert, if_neg h2]
        by_cases h3 : k2 = x
        · subst h3
          have : ¬ k = k2 := fun hh => h2 hh.symm
          simp [pyDictFind, this]
        · simp [pyDictFind, h3, ih]

theorem pyDictFind_eq_none_of_not_mem (m : List (Value × Value)) (x : Value)
    (h : x ∉ m.map Prod.fst) : pyDictFind m x = Option.none := by
  induction m with
  | nil => rfl
  | cons kv rest ih =>
      obtain ⟨k2, v2⟩ := kv
      simp only [List.map_cons, List.mem_cons] at h
      push_neg at h
      simp only [pyDictFind, if_neg (fun hh : k2 = x => h.1 hh.symm)]
      exact ih h.2

theorem mem_keys_pyDictInsert (m : List (Value × Value)) (k v x : Value)
    (h : x ∈ (pyDictInsert m k v).map Prod.fst) : x ∈ m.map Prod.fst ∨ x = k := by
  induction m with
  | nil =>
      simp [pyDictInsert] at h
      exact Or.inr h
  | cons kv rest ih =>
      obtain ⟨k2, v2⟩ := kv
      by_cases h2 : k2 = k
      · subst h2
        simp only [pyDictInsert, if_pos rfl] at h
        exact Or.inl h
      · simp only [pyDictInsert, if_neg h2, List.map_cons, List.mem_cons] at h
        rcases h with h | h
        · exact Or.inl (by simp [h])
        · rcases ih h with h3 | h3
          · exact Or.inl (List.mem_cons_of_mem _ h3)
          · exact Or.inr h3

theorem nodup_keys_pyDictInsert (m : List (Value × Value)) (k v : Value)
    (h : (m.map Prod.fst).Nodup) : ((pyDictInsert m k v).map Prod.fst).Nodup := by
  induction m with
  | nil => simp [pyDictInsert]
  | cons kv rest ih =>
      obtain ⟨k2, v2⟩ := kv
      simp only [List.map_cons, List.nodup_cons] at h
      by_cases h2 : k2 = k
      · subst h2
        simpa [pyDictInsert] using h
      · simp only [pyDictInsert, if_neg h2, List.map_cons, List.nodup_cons]
        refine ⟨fun hmem => ?_, ih h.2⟩
        rcases mem_keys_pyDictInsert rest k v k2 hmem with h3 | h3
        · exact h.1 h3
        · exact h2 h3

theorem nodup_keys_buildVersionMapAux :
    ∀ (vs : List Value) (acc m : List (Value × Value)),
      (acc.map Prod.fst).Nodup →
      buildVersionMapAux acc vs = some m → (m.map Prod.fst).Nodup := by
  intro vs
  induction vs with
  | nil =>
      intro acc m hacc h
      cases h
      exact hacc
  | cons v rest ih =>
      intro acc m hacc h
      rw [buildVersionMapAux] at h
      cases hl : versionLabel v with
      | none => rw [hl] at h; cases h
      | some label =>
          rw [hl] at h
          have h2 : buildVersionMapAux
              (if truthy label = true then pyDictInsert acc label v else acc) rest
              = some m := h
          by_cases ht : truthy label = true
          · rw [if_pos ht] at h2
            exact ih _ m (nodup_keys_pyDictInsert acc label v hacc) h2
          · rw [if_neg ht] at h2
            exact ih _ m hacc h2

theorem nodup_keys_buildVersionMap (vs : List Value) (m : List (Value × Value))
    (h : buildVersionMap vs = some m) : (m.map Prod.fst).Nodup :=
  nodup_keys_buildVersionMapAux vs [] m (by simp) h

theorem pyDictInsert_of_not_mem (m : List (Value × Value)) (k v : Value)
    (h : k ∉ m.map Prod.fst) : pyDictInsert m k v = m ++ [(k, v)] := by
  induction m with
  | nil => rfl
  | cons kv rest ih =>
      obtain ⟨k2, v2⟩ := kv
      simp only [List.map_cons, List.mem_cons] at h
      push_neg at h
      simp only [pyDictInsert, if_neg (fun hh : k2 = k => h.1 hh.symm), List.cons_append]
      rw [ih h.2]

/-- Re-inserting a dict with unique keys into the empty dict reproduces it:
the head of the Python double-star merge of the two version maps. -/
theorem pyDictUpdate_nil_eq_self :
    ∀ (entries : List (Value × Value)), ((entries.map Prod.fst).Nodup) →
      ∀ (m : List (Value × Value)),
        (∀ x ∈ entries.map Prod.fst, x ∉ m.map Prod.fst) →
        pyDictUpdate m entries = m ++ entries := by
  intro entries
  induction entries with
  | nil =>
      intro _ m _
      simp [pyDictUpdate]
  | cons kv rest ih =>
      intro hnodup m hdisj
      obtain ⟨k, v⟩ := kv
      simp only [List.map_cons, List.nodup_cons] at hnodup
      have hk : k ∉ m.map Prod.fst := hdisj k (by simp)
      show pyDictUpdate (pyDictInsert m k v) rest = m ++ (k, v) :: rest
      rw [pyDictInsert_of_not_mem m k v hk]
      rw [ih hnodup.2 (m ++ [(k, v)]) ?_]
      · simp
      · intro x hx
        simp only [List.map_append, List.mem_append]
        push_neg
        refine ⟨fun hh => hdisj x (by simp [hx]) hh, ?_⟩
        simp only [List.map_cons, List.map_nil, List.mem_singleton]
        intro hh
        exact hnodup.1 (hh ▸ hx)

/-- Looking a label up after overlaying the incoming version map on top of
another dict: the incoming entry wins, otherwise the underlying entry shows
through. -/
theorem pyDictFind_pyDictUpdate :
    ∀ (entries : List (Value × Value)), ((entries.map Prod.fst).Nodup) →
      ∀ (m : List (Value × Value)) (x : Value),
        pyDictFind (pyDictUpdate m entries) x
          = (pyDictFind entries x).or (pyDictFind m x) := by
  intro entries
  induction entries with
  | nil =>
      intro _ m x
      simp [pyDictUpdate, pyDictFind]
  | cons kv rest ih =>
      intro hnodup m x
      obtain ⟨k, v⟩ := kv
      simp only [List.map_cons, List.nodup_cons] at hnodup
      show pyDictFind (pyDictUpdate (pyDictInsert m k v) rest) x
        = (pyDictFind ((k, v) :: rest) x).or (pyDictFind m x)
      rw [ih hnodup.2]
      rw [pyDictFind_insert]
      by_cases hk : k = x
      · subst hk
        have hnone : pyDictFind rest k = Option.none :=
          pyDictFind_eq_none_of_not_mem rest k hnodup.1
        simp [pyDictFind, hnone]
      · simp [pyDictFind, hk]

theorem dictGet_decomp (d : Dict) (k : String) (v : Value) (h : dictGet d k = some v) :
    ∃ pre post, d = pre ++ (k, v) :: post ∧ k ∉ pre.map Prod.fst := by
  induction d with
  | nil => cases h
  | cons kv rest ih =>
      obtain ⟨k2, v2⟩ := kv
      by_cases h2 : k2 = k
      · subst h2
        simp only [dictGet, if_pos rfl] at h
        cases h
        exact ⟨[], rest, rfl, by simp⟩
      · simp only [dictGet, if_neg h2] at h
        obtain ⟨pre, post, hd, hpre⟩ := ih h
        refine ⟨(k2, v2) :: pre, post, by simp [hd], ?_⟩
        simp only [List.map_cons, List.mem_cons]
        push_neg
        exact ⟨fun hh => h2 hh.symm, hpre⟩

theorem mergeFold_append (existing : Dict) :
    ∀ (l1 l2 : List (String × Value)) (m : Dict),
      mergeFold existing m (l1 ++ l2)
        = match mergeFold existing m l1 with
          | Option.none => Option.none
          | some mid => mergeFold existing mid l2 := by
  intro l1
  induction l1 with
  | nil => intro l2 m; rfl
  | cons ju rest ih =>
      intro l2 m
      obtain ⟨j, u⟩ := ju
      show mergeFold existing m ((j, u) :: (rest ++ l2)) = _
      rw [mergeFold, mergeFold]
      cases hstep : mergeStep existing m j u with
      | none => rfl
      | some m2 => exact ih l2 m2

/-- Merge-loop iterations whose keys avoid k (and avoid versions when k is
version_count) leave the merged value at k untouched. -/
theorem mergeFold_get_of_not_mem (existing : Dict) (k : String) :
    ∀ (items : List (String × Value)) (m m2 : Dict),
      mergeFold existing m items = some m2 →
      k ∉ items.map Prod.fst →
      (k = "version_count" → "versions" ∉ items.map Prod.fst) →
      dictGet m2 k = dictGet m k := by
  intro items
  induction items with
  | nil =>
      intro m m2 h _ _
      cases h
      rfl
  | cons ju rest ih =>
      intro m m2 h hk hvc
      obtain ⟨j, u⟩ := ju
      simp only [List.map_cons, List.mem_cons] at hk
      push_neg at hk
      have hvc2 : k = "version_count" →
          "versions" ≠ j ∧ "versions" ∉ rest.map Prod.fst := by
        intro hh
        have h3 := hvc hh
        simp only [List.map_cons, List.mem_cons] at h3
        push_neg at h3
        exact h3
      rw [mergeFold] at h
      cases hstep : mergeStep existing m j u with
      | none => rw [hstep] at h; cases h
      | some m1 =>
          rw [hstep] at h
          rw [ih m1 m2 h hk.2 (fun hh => (hvc2 hh).2)]
          refine mergeStep_get_ne hstep hk.1 ?_
          intro hj hkvc
          exact (hvc2 hkvc).1 hj.symm

/-- The versions rule of the merge loop, in closed form: with both sides
lists and both label maps building successfully, the step overlays the
incoming map over the existing one, flattens, and writes versions and
version_count. -/
theorem mergeStep_versions (existing m : Dict) (nvs evs : List Value)
    (em nm : List (Value × Value))
    (hE : dictGet existing "versions" = some (.list evs))
    (hem : buildVersionMap evs = some em) (hnm : buildVersionMap nvs = some nm) :
    mergeStep existing m "versions" (.list nvs)
      = some (dictSet (dictSet m "versions"
          (.list ((mergedVersionEntries em nm).map Prod.snd)))
          "version_count" (.num ((mergedVersionEntries em nm).map Prod.snd).length)) := by
  simp [mergeStep, hE, hem, hnm]

/-- When building the label map of the existing versions list raises or
fails, so does the whole versions step. -/
theorem mergeStep_versions_fail_left (existing m : Dict) (nvs evs : List Value)
    (hE : dictGet existing "versions" = some (.list evs))
    (hem : buildVersionMap evs = Option.none) :
    mergeStep existing m "versions" (.list nvs) = Option.none := by
  simp [mergeStep, hE, hem]

theorem mergeStep_versions_fail_right (existing m : Dict) (nvs evs : List Value)
    (em : List (Value × Value))
    (hE : dictGet existing "versions" = some (.list evs))
    (hem : buildVersionMap evs = some em)
    (hnm : buildVersionMap nvs = Option.none) :
    mergeStep existing m "versions" (.list nvs) = Option.none := by
  simp [mergeStep, hE, hem, hnm]

/-- C1, amended: when both versions fields are lists, the merge builds the
label map of the existing list, overlays the incoming list's map (equal
labels replaced by the incoming entry, unseen labels added), flattens it back
to a sequence, and writes that sequence together with its length as
version_count.  The amendment: the length is what the final record carries
only when the incoming record itself has no version_count field of its own
(when it does, as transformer outputs do, the incoming value is iterated
after versions and overwrites the recomputed length; see the counterexample).
The length is never the sum of the two input counts. -/
theorem mergeRecords_versions_label_merge
    (existing new merged : Dict) (evs nvs : List Value)
    (hnodup : (new.map Prod.fst).Nodup)
    (hvcnotin : "version_count" ∉ new.map Prod.fst)
    (hE : dictGet existing "versions" = some (.list evs))
    (hN : dictGet new "versions" = some (.list nvs))
    (hm : mergeRecords existing new = some merged) :
    ∃ em nm, buildVersionMap evs = some em ∧ buildVersionMap nvs = some nm ∧
      dictGet merged "versions"
        = some (.list ((mergedVersionEntries em nm).map Prod.snd)) ∧
      dictGet merged "version_count"
        = some (.num ((mergedVersionEntries em nm).map Prod.snd).length) ∧
      ∀ label, pyDictFind (mergedVersionEntries em nm) label
        = (pyDictFind nm label).or (pyDictFind em label) := by
  obtain ⟨pre, post, hdecomp, hpre⟩ := dictGet_decomp new "versions" (.list nvs) hN
  subst hdecomp
  have h0 : (pre.map Prod.fst ++ "versions" :: post.map Prod.fst).Nodup := by
    simpa [List.map_append] using hnodup
  have hvpost : "versions" ∉ post.map Prod.fst :=
    (List.nodup_cons.mp (List.Nodup.of_append_right h0)).1
  have h2 : "version_count" ∉ (pre.map Prod.fst ++ "versions" :: post.map Prod.fst) := by
    simpa [List.map_append] using hvcnotin
  have hvcpost : "version_count" ∉ post.map Prod.fst :=
    fun hmem => h2 (List.mem_append_right _ (List.mem_cons_of_mem _ hmem))
  unfold mergeRecords at hm
  cases hfold : mergeFold existing existing (pre ++ ("versions", Value.list nvs) :: post) with
  | none => rw [hfold] at hm; cases hm
  | some m1 =>
      rw [hfold] at hm
      cases hm
      rw [mergeFold_append] at hfold
      cases hpreF : mergeFold existing existing pre with
      | none => rw [hpreF] at hfold; cases hfold
      | some mp =>
          rw [hpreF] at hfold
          have hfold2 :
              mergeFold existing mp (("versions", Value.list nvs) :: post) = some m1 :=
            hfold
          rw [mergeFold] at hfold2
          cases hbem : buildVersionMap evs with
          | none =>
              rw [mergeStep_versions_fail_left existing mp nvs evs hE hbem] at hfold2
              cases hfold2
          | some em =>
              cases hbnm : buildVersionMap nvs with
              | none =>
                  rw [mergeStep_versions_fail_right existing mp nvs evs em hE hbem hbnm]
                    at hfold2
                  cases hfold2
              | some nm =>
                  rw [mergeStep_versions existing mp nvs evs em nm hE hbem hbnm] at hfold2
                  have hpost :
                      mergeFold existing
                        (dictSet (dictSet mp "versions"
                            (.list ((mergedVersionEntries em nm).map Prod.snd)))
                          "version_count"
                          (.num ((mergedVersionEntries em nm).map Prod.snd).length))
                        post = some m1 := hfold2
                  refine ⟨em, nm, rfl, rfl, ?_, ?_, ?_⟩
                  · rw [dictGet_dictSet_ne _ "last_processed" "versions" _ (by decide)]
                    rw [mergeFold_get_of_not_mem existing "versions" post _ m1 hpost
                      hvpost (fun hh => absurd hh (by decide))]
                    rw [dictGet_dictSet_ne _ "version_count" "versions" _ (by decide)]
                    exact dictGet_dictSet_self _ _ _
                  · rw [dictGet_dictSet_ne _ "last_processed" "version_count" _ (by decide)]
                    rw [mergeFold_get_of_not_mem existing "version_count" post _ m1 hpost
                      hvcpost (fun _ => hvpost)]
                    exact dictGet_dictSet_self _ _ _
                  · intro label
                    unfold mergedVersionEntries
                    rw [pyDictFind_pyDictUpdate nm
                      (nodup_keys_buildVersionMap nvs nm hbnm) _ label]
                    rw [pyDictUpdate_nil_eq_self em
                      (nodup_keys_buildVersionMap evs em hbem) [] (by simp)]
                    simp

/-- Witness for C1 at the spec's own collision example: v1 collides (incoming
wins), v2 is added, and version_count is the merged length. -/
theorem mergeRecords_versions_label_merge_witness :
    mergeRecords
      [("versions", .list [.dict [("version", .str "v1"), ("created", .str "A")]])]
      [("versions", .list [.dict [("version", .str "v1"), ("created", .str "B")],
                           .dict [("version", .str "v2"), ("created", .str "C")]]),
       ("last_processed", .str "t")]
    = some
      [("versions", .list [.dict [("version", .str "v1"), ("created", .str "B")],
                           .dict [("version", .str "v2"), ("created", .str "C")]]),
       ("version_count", .num 2),
       ("last_processed", .str "t")]
    ∧ (∃ em nm,
        buildVersionMap [.dict [("version", .str "v1"), ("created", .str "A")]] = some em ∧
        buildVersionMap [.dict [("version", .str "v1"), ("created", .str "B")],
                         .dict [("version", .str "v2"), ("created", .str "C")]] = some nm ∧
        dictGet
          [("versions", .list [.dict [("version", .str "v1"), ("created", .str "B")],
                               .dict [("version", .str "v2"), ("created", .str "C")]]),
           ("version_count", .num 2),
           ("last_processed", .str "t")] "versions"
          = some (.list ((mergedVersionEntries em nm).map Prod.snd)) ∧
        dictGet
          [("versions", .list [.dict [("version", .str "v1"), ("created", .str "B")],
                               .dict [("version", .str "v2"), ("created", .str "C")]]),
           ("version_count", .num 2),
           ("last_processed", .str "t")] "version_count"
          = some (.num ((mergedVersionEntries em nm).map Prod.snd).length) ∧
        ∀ label, pyDictFind (mergedVersionEntries em nm) label
          = (pyDictFind nm label).or (pyDictFind em label)) := by
  refine ⟨by decide, ?_⟩
  exact mergeRecords_versions_label_merge
    [("versions", .list [.dict [("version", .str "v1"), ("created", .str "A")]])]
    [("versions", .list [.dict [("version", .str "v1"), ("created", .str "B")],
                         .dict [("version", .str "v2"), ("created", .str "C")]]),
     ("last_processed", .str "t")]
    [("versions", .list [.dict [("version", .str "v1"), ("created", .str "B")],
                         .dict [("version", .str "v2"), ("created", .str "C")]]),
     ("version_count", .num 2),
     ("last_processed", .str "t")]
    [.dict [("version", .str "v1"), ("created", .str "A")]]
    [.dict [("version", .str "v1"), ("created", .str "B")],
     .dict [("version", .str "v2"), ("created", .str "C")]]
    (by decide) (by decide) (by decide) (by decide) (by decide)

/-- Counterexample for C1 as frozen: when the incoming record carries its own
version_count field after versions (as every transformer output does), that
value overwrites the recomputed merged length, so the final version_count is
not the merged sequence's length. -/
theorem mergeRecords_version_count_not_merged_length :
    mergeRecords
      [("versions", .list [.dict [("version", .str "v1")]])]
      [("versions", .list [.dict [("version", .str "v2")]]),
       ("version_count", .num 1)]
    = some
      [("versions", .list [.dict [("version", .str "v1")], .dict [("version", .str "v2")]]),
       ("version_count", .num 1),
       ("last_processed", .none)]
    ∧ ([Value.dict [("version", .str "v1")], Value.dict [("version", .str "v2")]].length = 2)
    ∧ dictGet
        [("versions", .list [.dict [("version", .str "v1")], .dict [("version", .str "v2")]]),
         ("version_count", .num 1),
         ("last_processed", .none)] "version_count" ≠ some (.num 2) := by
  exact ⟨by decide, by decide, by decide⟩

theorem dictGet_of_mem_nodup (d : Dict) (j : String) (u : Value)
    (hkeys : (d.map Prod.fst).Nodup) (hmem : (j, u) ∈ d) :
    dictGet d j = some u := by
  induction d with
  | nil => cases hmem
  | cons kv rest ih =>
      obtain ⟨k2, v2⟩ := kv
      simp only [List.map_cons, List.nodup_cons] at hkeys
      rcases List.mem_cons.mp hmem with h | h
      · cases h
        simp [dictGet]
      · by_cases hk : k2 = j
        · subst hk
          exact absurd (List.mem_map_of_mem Prod.fst h) hkeys.1
        · simp only [dictGet, if_neg hk]
          exact ih hkeys.2 h

/-- Merging a record with itself: invariant-carrying induction over the merge
loop.  Every processed item carries the record's own value for its key, so
under the round-trip hypotheses each step rewrites a field to the value it
already has. -/
theorem mergeFold_self (r : Dict)
    (hkeys : (r.map Prod.fst).Nodup)
    (hcat : ∀ cs, dictGet r "categories" = some (Value.list cs) →
      pySetList (cs ++ cs) = some cs)
    (hver : ∀ vs, dictGet r "versions" = some (Value.list vs) →
      ∃ vm, buildVersionMap vs = some vm ∧
        (mergedVersionEntries vm vm).map Prod.snd = vs ∧
        dictGet r "version_count" = some (.num vs.length)) :
    ∀ (items : List (String × Value)), (∀ x ∈ items, x ∈ r) →
      ∀ (m : Dict), (∀ k, dictGet m k = dictGet r k) →
      ∃ m2, mergeFold r m items = some m2 ∧ ∀ k, dictGet m2 k = dictGet r k := by
  intro items
  induction items with
  | nil =>
      intro _ m hinv
      exact ⟨m, rfl, hinv⟩
  | cons ju rest ih =>
      intro hsub m hinv
      obtain ⟨j, u⟩ := ju
      have hmemr : (j, u) ∈ r := hsub _ (List.mem_cons_self _ _)
      have hju : dictGet r j = some u := dictGet_of_mem_nodup r j u hkeys hmemr
      have hsub2 : ∀ x ∈ rest, x ∈ r := fun x hx => hsub x (List.mem_cons_of_mem _ hx)
      have hsetinv : ∀ k, dictGet (dictSet m j u) k = dictGet r k := by
        intro k
        by_cases hk : k = j
        · subst hk
          rw [dictGet_dictSet_self, hju]
        · rw [dictGet_dictSet_ne _ _ _ _ hk]
          exact hinv k
      by_cases hempty : u = Value.none ∨ u = Value.str ""
      · rw [mergeFold, mergeStep_of_empty r m j u hempty]
        exact ih hsub2 m hinv
      · by_cases hauth : j = "authors" ∧ (dictGet r "authors").isSome = true
        · obtain ⟨hj, hsome⟩ := hauth
          subst hj
          by_cases htru : truthy u = true
          · have hstep : mergeStep r m "authors" u = some (dictSet m "authors" u) := by
              simp [mergeStep, hempty, hsome, htru]
            rw [mergeFold, hstep]
            exact ih hsub2 _ hsetinv
          · have hstep : mergeStep r m "authors" u = some m := by
              simp [mergeStep, hempty, hsome, htru]
            rw [mergeFold, hstep]
            exact ih hsub2 m hinv
        · by_cases hcatg : j = "categories" ∧ (dictGet r "categories").isSome = true
          · obtain ⟨hj, hsome⟩ := hcatg
            subst hj
            cases u with
            | list ec =>
                have hpy : pySetList (ec ++ ec) = some ec := hcat ec hju
                have hstep : mergeStep r m "categories" (Value.list ec)
                    = some (dictSet m "categories" (Value.list ec)) := by
                  simp [mergeStep, hju, hpy]
                rw [mergeFold, hstep]
                exact ih hsub2 _ hsetinv
            | none => exact absurd (Or.inl rfl) hempty
            | str s =>
                have hs : ¬ s = "" := fun h => hempty (Or.inr (by rw [h]))
                have hstep : mergeStep r m "categories" (Value.str s)
                    = some (dictSet m "categories" (Value.str s)) := by
                  simp [mergeStep, hju, hs]
                rw [mergeFold, hstep]
                exact ih hsub2 _ hsetinv
            | num q =>
                have hstep : mergeStep r m "categories" (Value.num q)
                    = some (dictSet m "categories" (Value.num q)) := by
                  simp [mergeStep, hju]
                rw [mergeFold, hstep]
                exact ih hsub2 _ hsetinv
            | dec q =>
                have hstep : mergeStep r m "categories" (Value.dec q)
                    = some (dictSet m "categories" (Value.dec q)) := by
                  simp [mergeStep, hju]
                rw [mergeFold, hstep]
                exact ih hsub2 _ hsetinv
            | bool b =>
                have hstep : mergeStep r m "categories" (Value.bool b)
                    = some (dictSet m "categories" (Value.bool b)) := by
                  simp [mergeStep, hju]
                rw [mergeFold, hstep]
                exact ih hsub2 _ hsetinv
            | dict fs =>
                have hstep : mergeStep r m "categories" (Value.dict fs)
                    = some (dictSet m "categories" (Value.dict fs)) := by
                  simp [mergeStep, hju]
                rw [mergeFold, hstep]
                exact ih hsub2 _ hsetinv
          · by_cases hvers : j = "versions" ∧ (dictGet r "versions").isSome = true
            · obtain ⟨hj, hsome⟩ := hvers
              subst hj
              cases u with
              | list vs =>
                  obtain ⟨vm, hbm, hround, hcount⟩ := hver vs hju
                  have hstep := mergeStep_versions r m vs vs vm vm hju hbm hbm
                  rw [hround] at hstep
                  rw [mergeFold, hstep]
                  refine ih hsub2 _ ?_
                  intro k
                  by_cases hk : k = "version_count"
                  · subst hk
                    rw [dictGet_dictSet_self, hcount]
                  · rw [dictGet_dictSet_ne _ _ _ _ hk]
                    by_cases hk2 : k = "versions"
                    · subst hk2
                      rw [dictGet_dictSet_self, hju]
                    · rw [dictGet_dictSet_ne _ _ _ _ hk2]
                      exact hinv k
              | none => exact absurd (Or.inl rfl) hempty
              | str s =>
                  have hs : ¬ s = "" := fun h => hempty (Or.inr (by rw [h]))
                  have hstep : mergeStep r m "versions" (Value.str s)
                      = some (dictSet m "versions" (Value.str s)) := by
                    simp [mergeStep, hju, hs]
                  rw [mergeFold, hstep]
                  exact ih hsub2 _ hsetinv
              | num q =>
                  have hstep : mergeStep r m "versions" (Value.num q)
                      = some (dictSet m "versions" (Value.num q)) := by
                    simp [mergeStep, hju]
                  rw [mergeFold, hstep]
                  exact ih hsub2 _ hsetinv
              | dec q =>
                  have hstep : mergeStep r m "versions" (Value.dec q)
                      = some (dictSet m "versions" (Value.dec q)) := by
                    simp [mergeStep, hju]
                  rw [mergeFold, hstep]
                  exact ih hsub2 _ hsetinv
              | bool b =>
                  have hstep : mergeStep r m "versions" (Value.bool b)
                      = some (dictSet m "versions" (Value.bool b)) := by
                    simp [mergeStep, hju]
                  rw [mergeFold, hstep]
                  exact ih hsub2 _ hsetinv
              | dict fs =>
                  have hstep : mergeStep r m "versions" (Value.dict fs)
                      = some (dictSet m "versions" (Value.dict fs)) := by
                    simp [mergeStep, hju]
                  rw [mergeFold, hstep]
                  exact ih hsub2 _ hsetinv
            · have hstep : mergeStep r m j u = some (dictSet m j u) := by
                simp [mergeStep, hempty, hauth, hcatg, hvers]
              rw [mergeFold, hstep]
              exact ih hsub2 _ hsetinv

/-- C3, amended: merging a record with itself yields a record equal to it on
every field except last_processed, PROVIDED the record survives the two lossy
round trips of the merge: its categories value (when a list) must come back
unchanged from the set round trip (no duplicate entries, all hashable), and
its versions value (when a list) must come back unchanged from the label-map
round trip (all entries dicts with distinct truthy labels) with version_count
equal to its length.  Without those conditions idempotence fails; see the
counterexample. -/
theorem mergeRecords_self_idempotent (r : Dict)
    (hkeys : (r.map Prod.fst).Nodup)
    (hcat : ∀ cs, dictGet r "categories" = some (Value.list cs) →
      pySetList (cs ++ cs) = some cs)
    (hver : ∀ vs, dictGet r "versions" = some (Value.list vs) →
      ∃ vm, buildVersionMap vs = some vm ∧
        (mergedVersionEntries vm vm).map Prod.snd = vs ∧
        dictGet r "version_count" = some (.num vs.length)) :
    ∃ m, mergeRecords r r = some m ∧
      ∀ k, k ≠ "last_processed" → dictGet m k = dictGet r k := by
  obtain ⟨m2, hfold, hinv⟩ :=
    mergeFold_self r hkeys hcat hver r (fun x hx => hx) r (fun _ => rfl)
  refine ⟨dictSet m2 "last_processed" (pyGet r "last_processed"), ?_, ?_⟩
  · unfold mergeRecords
    rw [hfold]
  · intro k hk
    rw [dictGet_dictSet_ne _ _ _ _ hk]
    exact hinv k

/-- Witness for C3 at a concrete well-formed record. -/
theorem mergeRecords_self_idempotent_witness :
    ∃ m, mergeRecords
        [("paper_id", .str "p1"),
         ("categories", .list [.str "cs.AI", .str "cs.LG"]),
         ("versions", .list [.dict [("version", .str "v1"), ("created", .str "A")]]),
         ("version_count", .num 1),
         ("last_processed", .str "old")]
        [("paper_id", .str "p1"),
         ("categories", .list [.str "cs.AI", .str "cs.LG"]),
         ("versions", .list [.dict [("version", .str "v1"), ("created", .str "A")]]),
         ("version_count", .num 1),
         ("last_processed", .str "old")] = some m ∧
      ∀ k, k ≠ "last_processed" →
        dictGet m k = dictGet
          [("paper_id", .str "p1"),
           ("categories", .list [.str "cs.AI", .str "cs.LG"]),
           ("versions", .list [.dict [("version", .str "v1"), ("created", .str "A")]]),
           ("version_count", .num 1),
           ("last_processed", .str "old")] k := by
  refine mergeRecords_self_idempotent _ (by decide) ?_ ?_
  · intro cs hcs
    have : cs = [Value.str "cs.AI", Value.str "cs.LG"] := by
      have h2 := hcs
      simp [dictGet] at h2
      exact h2.symm
    subst this
    decide
  · intro vs hvs
    have : vs = [Value.dict [("version", .str "v1"), ("created", .str "A")]] := by
      have h2 := hvs
      simp [dictGet] at h2
      exact h2.symm
    subst this
    exact ⟨[(.str "v1", .dict [("version", .str "v1"), ("created", .str "A")])],
      by decide, by decide, by decide⟩

/-- Counterexample for C3 as frozen: a record whose categories list holds a
duplicate is not a fixed point of self-merge, because the set round trip
deduplicates the list; the claim quantifies over every record. -/
theorem mergeRecords_self_not_idempotent :
    mergeRecords [("categories", .list [.str "cs.AI", .str "cs.AI"])]
      [("categories", .list [.str "cs.AI", .str "cs.AI"])]
    = some [("categories", .list [.str "cs.AI"]), ("last_processed", .none)]
    ∧ dictGet [("categories", .list [.str "cs.AI"]), ("last_processed", .none)] "categories"
        ≠ dictGet [("categories", .list [.str "cs.AI", .str "cs.AI"])] "categories"
    ∧ "categories" ≠ "last_processed" := by
  exact ⟨by decide, by decide, by decide⟩

mutual

/-- PersistenceWriter._convert_types_for_dynamodb (writer.py lines 335 to
385): drop None fields and empty-list fields; for a non-empty list whose
first element is a dict, convert every element as a dict (raising on a
non-dict element, modelled by Option.none); recurse into dict values; pass
booleans through; convert int/float to the exact-decimal type; keep
everything else (including empty strings) unchanged. -/
def convertTypesForDynamoDB : List (String × Value) → Option (List (String × Value))
  | [] => some []
  | (k, v) :: rest =>
      match v with
      | Value.none => convertTypesForDynamoDB rest
      | Value.list [] => convertTypesForDynamoDB rest
      | Value.list (v0 :: vs) =>
          match v0 with
          | Value.dict fs0 =>
              match convertDictList (Value.dict fs0 :: vs) with
              | Option.none => Option.none
              | some converted =>
                  match convertTypesForDynamoDB rest with
                  | Option.none => Option.none
                  | some r2 => some ((k, Value.list converted) :: r2)
          | _ =>
              match convertTypesForDynamoDB rest with
              | Option.none => Option.none
              | some r2 => some ((k, Value.list (v0 :: vs)) :: r2)
      | Value.dict fs =>
          match convertTypesForDynamoDB fs with
          | Option.none => Option.none
          | some fs2 =>
              match convertTypesForDynamoDB rest with
              | Option.none => Option.none
              | some r2 => some ((k, Value.dict fs2) :: r2)
      | Value.bool b =>
          match convertTypesForDynamoDB rest with
          | Option.none => Option.none
          | some r2 => some ((k, Value.bool b) :: r2)
      | Value.num q =>
          match convertTypesForDynamoDB rest with
          | Option.none => Option.none
          | some r2 => some ((k, Value.dec q) :: r2)
      | Value.dec q =>
          match convertTypesForDynamoDB rest with
          | Option.none => Option.none
          | some r2 => some ((k, Value.dec q) :: r2)
      | Value.str s =>
          match convertTypesForDynamoDB rest with
          | Option.none => Option.none
          | some r2 => some ((k, Value.str s) :: r2)

/-- The per-element conversion applied when a list's first element is a dict
(writer.py line 361): every element is fed back through the dict converter,
so a non-dict element raises AttributeError on .items(). -/
def convertDictList : List Value → Option (List Value)
  | [] => some []
  | Value.dict fs :: vs =>
      match convertTypesForDynamoDB fs with
      | Option.none => Option.none
      | some fs2 =>
          match convertDictList vs with
          | Option.none => Option.none
          | some vs2 => some (Value.dict fs2 :: vs2)
  | _ :: _ => Option.none

end

mutual

/-- Values on which the type conversion cannot raise: every list whose first
element is a dict must consist only of dicts, recursively. -/
def convValueOk : Value → Bool
  | Value.list (Value.dict fs0 :: vs) => convAllDictsOk (Value.dict fs0 :: vs)
  | Value.list _ => true
  | Value.dict fs => convFieldsOk fs
  | _ => true

def convAllDictsOk : List Value → Bool
  | [] => true
  | Value.dict fs :: vs => convFieldsOk fs && convAllDictsOk vs
  | _ :: _ => false

def convFieldsOk : List (String × Value) → Bool
  | [] => true
  | (_, v) :: rest => convValueOk v && convFieldsOk rest

end

/-- On hazard-free inputs the conversion returns normally. -/
theorem convFieldsOk_convert_isSome (d : List (String × Value)) :
    convFieldsOk d = true → (convertTypesForDynamoDB d).isSome = true := by
  refine convertTypesForDynamoDB.induct
    (fun d => convFieldsOk d = true → (convertTypesForDynamoDB d).isSome = true)
    (fun l => convAllDictsOk l = true → (convertDictList l).isSome = true)
    ?_ ?_ ?_ ?_ ?_ ?_ ?_ ?_ ?_ ?_ ?_ ?_ ?_ ?_ ?_ ?_ ?_ ?_ ?_ ?_ ?_ ?_ ?_ ?_ d
  all_goals intros
  all_goals try (rename_i hns; cases hhead : (by assumption : Value))
  all_goals simp_all [convertTypesForDynamoDB, convertDictList,
    convFieldsOk, convValueOk, convAllDictsOk]

theorem dictGet_eq_none_of_not_mem (d : Dict) (k : String)
    (h : k ∉ d.map Prod.fst) : dictGet d k = Option.none := by
  induction d with
  | nil => rfl
  | cons kv rest ih =>
      obtain ⟨k2, v2⟩ := kv
      simp only [List.map_cons, List.mem_cons] at h
      push_neg at h
      simp only [dictGet, if_neg (fun hh : k2 = k => h.1 hh.symm)]
      exact ih h.2

/-- What conversion does to one key: absent keys stay absent, null and
empty-list fields are dropped, string fields are kept verbatim. -/
def ConvSpec (d : List (String × Value)) : Prop :=
  ∀ item k, (d.map Prod.fst).Nodup → convertTypesForDynamoDB d = some item →
    (dictGet d k = Option.none → dictGet item k = Option.none)
    ∧ (dictGet d k = some Value.none → dictGet item k = Option.none)
    ∧ (dictGet d k = some (Value.list []) → dictGet item k = Option.none)
    ∧ (∀ s, dictGet d k = some (Value.str s) → dictGet item k = some (Value.str s))

theorem convSpec_cons_kept (j : String) (v w : Value)
    (rest item2 : List (String × Value))
    (hrest : ConvSpec rest)
    (hconv : convertTypesForDynamoDB rest = some item2)
    (hv1 : v ≠ Value.none) (hv2 : v ≠ Value.list [])
    (hw : ∀ s, v = Value.str s → w = Value.str s) :
    ∀ item k, (((j, v) :: rest).map Prod.fst).Nodup →
      item = (j, w) :: item2 →
      (dictGet ((j, v) :: rest) k = Option.none → dictGet item k = Option.none)
      ∧ (dictGet ((j, v) :: rest) k = some Value.none → dictGet item k = Option.none)
      ∧ (dictGet ((j, v) :: rest) k = some (Value.list []) → dictGet item k = Option.none)
      ∧ (∀ s, dictGet ((j, v) :: rest) k = some (Value.str s) →
          dictGet item k = some (Value.str s)) := by
  intro item k hnodup hitem
  subst hitem
  simp only [List.map_cons, List.nodup_cons] at hnodup
  have hIH := hrest item2 k hnodup.2 hconv
  by_cases hk : j = k
  · subst hk
    simp only [dictGet, if_pos rfl]
    constructor
    · intro h
      cases h
    constructor
    · intro h
      exact absurd (Option.some_inj.mp h) hv1
    constructor
    · intro h
      exact absurd (Option.some_inj.mp h) hv2
    · intro s h
      rw [if_pos trivial] at h
      rw [if_pos trivial, hw s (Option.some_inj.mp h)]
  · simp only [dictGet, if_neg hk]
    exact hIH

theorem convSpec_cons_dropped (j : String) (v : Value)
    (rest item : List (String × Value))
    (hrest : ConvSpec rest)
    (hconv : convertTypesForDynamoDB rest = some item)
    (hv : v = Value.none ∨ v = Value.list []) :
    ∀ k, (((j, v) :: rest).map Prod.fst).Nodup →
      (dictGet ((j, v) :: rest) k = Option.none → dictGet item k = Option.none)
      ∧ (dictGet ((j, v) :: rest) k = some Value.none → dictGet item k = Option.none)
      ∧ (dictGet ((j, v) :: rest) k = some (Value.list []) → dictGet item k = Option.none)
      ∧ (∀ s, dictGet ((j, v) :: rest) k = some (Value.str s) →
          dictGet item k = some (Value.str s)) := by
  intro k hnodup
  simp only [List.map_cons, List.nodup_cons] at hnodup
  have hIH := hrest item k hnodup.2 hconv
  by_cases hk : j = k
  · subst hk
    have habs : dictGet rest j = Option.none :=
      dictGet_eq_none_of_not_mem rest j hnodup.1
    have hgone : dictGet item j = Option.none := hIH.1 habs
    simp only [dictGet, if_pos rfl]
    refine ⟨fun _ => hgone, fun _ => hgone, fun _ => hgone, ?_⟩
    intro s h
    rcases hv with hv | hv <;> (cases hv; cases Option.some_inj.mp h)
  · simp only [dictGet, if_neg hk]
    exact hIH

theorem convSpec_all : ∀ d, ConvSpec d := by
  intro d
  induction d with
  | nil =>
      intro item k _ hconv
      simp only [convertTypesForDynamoDB] at hconv
      cases hconv
      refine ⟨fun _ => rfl, ?_, ?_, ?_⟩
      · intro h
        cases h
      · intro h
        cases h
      · intro s h
        cases h
  | cons kv rest ih =>
      intro item k hnodup hconv
      obtain ⟨j, v⟩ := kv
      cases v with
      | none =>
          simp only [convertTypesForDynamoDB] at hconv
          exact convSpec_cons_dropped j Value.none rest item ih hconv (Or.inl rfl) k hnodup
      | str s =>
          simp only [convertTypesForDynamoDB] at hconv
          cases hc : convertTypesForDynamoDB rest with
          | none => rw [hc] at hconv; cases hconv
          | some r2 =>
              rw [hc] at hconv
              cases hconv
              exact convSpec_cons_kept j (Value.str s) (Value.str s) rest r2 ih hc
                (by simp) (by simp) (fun s2 h => h ▸ rfl) _ k hnodup rfl
      | num q =>
          simp only [convertTypesForDynamoDB] at hconv
          cases hc : convertTypesForDynamoDB rest with
          | none => rw [hc] at hconv; cases hconv
          | some r2 =>
              rw [hc] at hconv
              cases hconv
              exact convSpec_cons_kept j (Value.num q) (Value.dec q) rest r2 ih hc
                (by simp) (by simp) (fun s2 h => by cases h) _ k hnodup rfl
      | dec q =>
          simp only [convertTypesForDynamoDB] at hconv
          cases hc : convertTypesForDynamoDB rest with
          | none => rw [hc] at hconv; cases hconv
          | some r2 =>
              rw [hc] at hconv
              cases hconv
              exact convSpec_cons_kept j (Value.dec q) (Value.dec q) rest r2 ih hc
                (by simp) (by simp) (fun s2 h => by cases h) _ k hnodup rfl
      | bool b =>
          simp only [convertTypesForDynamoDB] at hconv
          cases hc : convertTypesForDynamoDB rest with
          | none => rw [hc] at hconv; cases hconv
          | some r2 =>
              rw [hc] at hconv
              cases hconv
              exact convSpec_cons_kept j (Value.bool b) (Value.bool b) rest r2 ih hc
                (by simp) (by simp) (fun s2 h => by cases h) _ k hnodup rfl
      | dict fs =>
          simp only [convertTypesForDynamoDB] at hconv
          cases hfs : convertTypesForDynamoDB fs with
          | none => rw [hfs] at hconv; cases hconv
          | some fs2 =>
              rw [hfs] at hconv
              cases hc : convertTypesForDynamoDB rest with
              | none => rw [hc] at hconv; cases hconv
              | some r2 =>
                  rw [hc] at hconv
                  cases hconv
                  exact convSpec_cons_kept j (Value.dict fs) (Value.dict fs2) rest r2 ih hc
                    (by simp) (by simp) (fun s2 h => by cases h) _ k hnodup rfl
      | list vs =>
          cases vs with
          | nil =>
              simp only [convertTypesForDynamoDB] at hconv
              exact convSpec_cons_dropped j (Value.list []) rest item ih hconv
                (Or.inr rfl) k hnodup
          | cons v0 vs2 =>
              cases v0 with
              | dict fs0 =>
                  simp only [convertTypesForDynamoDB] at hconv
                  cases hdl : convertDictList (Value.dict fs0 :: vs2) with
                  | none => rw [hdl] at hconv; cases hconv
                  | some converted =>
                      rw [hdl] at hconv
                      cases hc : convertTypesForDynamoDB rest with
                      | none => rw [hc] at hconv; cases hconv
                      | some r2 =>
                          rw [hc] at hconv
                          cases hconv
                          exact convSpec_cons_kept j (Value.list (Value.dict fs0 :: vs2))
                            (Value.list converted) rest r2 ih hc
                            (by simp) (by simp) (fun s2 h => by cases h) _ k hnodup rfl
              | none =>
                  simp only [convertTypesForDynamoDB] at hconv
                  cases hc : convertTypesForDynamoDB rest with
                  | none => rw [hc] at hconv; cases hconv
                  | some r2 =>
                      rw [hc] at hconv
                      cases hconv
                      exact convSpec_cons_kept j (Value.list (Value.none :: vs2))
                        (Value.list (Value.none :: vs2)) rest r2 ih hc
                        (by simp) (by simp) (fun s2 h => by cases h) _ k hnodup rfl
              | str s0 =>
                  simp only [convertTypesForDynamoDB] at hconv
                  cases hc : convertTypesForDynamoDB rest with
                  | none => rw [hc] at hconv; cases hconv
                  | some r2 =>
                      rw [hc] at hconv
                      cases hconv
                      exact convSpec_cons_kept j (Value.list (Value.str s0 :: vs2))
                        (Value.list (Value.str s0 :: vs2)) rest r2 ih hc
                        (by simp) (by simp) (fun s2 h => by cases h) _ k hnodup rfl
              | num q0 =>
                  simp only [convertTypesForDynamoDB] at hconv
                  cases hc : convertTypesForDynamoDB rest with
                  | none => rw [hc] at hconv; cases hconv
                  | some r2 =>
                      rw [hc] at hconv
                      cases hconv
                      exact convSpec_cons_kept j (Value.list (Value.num q0 :: vs2))
                        (Value.list (Value.num q0 :: vs2)) rest r2 ih hc
                        (by simp) (by simp) (fun s2 h => by cases h) _ k hnodup rfl
              | dec q0 =>
                  simp only [convertTypesForDynamoDB] at hconv
                  cases hc : convertTypesForDynamoDB rest with
                  | none => rw [hc] at hconv; cases hconv
                  | some r2 =>
                      rw [hc] at hconv
                      cases hconv
                      exact convSpec_cons_kept j (Value.list (Value.dec q0 :: vs2))
                        (Value.list (Value.dec q0 :: vs2)) rest r2 ih hc
                        (by simp) (by simp) (fun s2 h => by cases h) _ k hnodup rfl
              | bool b0 =>
                  simp only [convertTypesForDynamoDB] at hconv
                  cases hc : convertTypesForDynamoDB rest with
                  | none => rw [hc] at hconv; cases hconv
                  | some r2 =>
                      rw [hc] at hconv
                      cases hconv
                      exact convSpec_cons_kept j (Value.list (Value.bool b0 :: vs2))
                        (Value.list (Value.bool b0 :: vs2)) rest r2 ih hc
                        (by simp) (by simp) (fun s2 h => by cases h) _ k hnodup rfl
              | list l0 =>
                  simp only [convertTypesForDynamoDB] at hconv
                  cases hc : convertTypesForDynamoDB rest with
                  | none => rw [hc] at hconv; cases hconv
                  | some r2 =>
                      rw [hc] at hconv
                      cases hconv
                      exact convSpec_cons_kept j (Value.list (Value.list l0 :: vs2))
                        (Value.list (Value.list l0 :: vs2)) rest r2 ih hc
                        (by simp) (by simp) (fun s2 h => by cases h) _ k hnodup rfl

/-- C4, amended: the type conversion drops exactly the null and empty-list
fields (empty STRINGS are kept verbatim, contrary to the frozen claim), and
it returns normally when, additionally, every list whose first element is an
object contains only objects; a mixed list headed by an object makes it
raise (see the counterexample). -/
theorem convertTypes_drop_and_total_behaviour :
    (∀ d, convFieldsOk d = true → (convertTypesForDynamoDB d).isSome = true)
    ∧ (∀ d item k, (d.map Prod.fst).Nodup → convertTypesForDynamoDB d = some item →
        (dictGet d k = some Value.none ∨ dictGet d k = some (Value.list [])) →
        dictGet item k = Option.none)
    ∧ (∀ d item k s, (d.map Prod.fst).Nodup → convertTypesForDynamoDB d = some item →
        dictGet d k = some (Value.str s) → dictGet item k = some (Value.str s)) := by
  refine ⟨convFieldsOk_convert_isSome, ?_, ?_⟩
  · intro d item k hnodup hconv hdrop
    rcases hdrop with h | h
    · exact ((convSpec_all d item k hnodup hconv).2.1) h
    · exact ((convSpec_all d item k hnodup hconv).2.2.1) h
  · intro d item k s hnodup hconv hstr
    exact ((convSpec_all d item k hnodup hconv).2.2.2) s hstr

/-- Witness for C4 (amended) at a concrete record: the null and empty-list
fields vanish, the empty-string field survives, and conversion succeeds. -/
theorem convertTypes_drop_and_total_behaviour_witness :
    (convertTypesForDynamoDB
      [("doi", Value.none), ("authors", Value.list []),
       ("title", Value.str ""), ("version_count", Value.num 3)]).isSome = true
    ∧ dictGet [("title", Value.str ""), ("version_count", Value.dec 3)] "doi"
        = Option.none
    ∧ dictGet [("title", Value.str ""), ("version_count", Value.dec 3)] "title"
        = some (Value.str "") := by
  refine ⟨?_, ?_, ?_⟩
  · exact convertTypes_drop_and_total_behaviour.1 _
      (by simp [convFieldsOk, convValueOk])
  · exact convertTypes_drop_and_total_behaviour.2.1
      [("doi", Value.none), ("authors", Value.list []),
       ("title", Value.str ""), ("version_count", Value.num 3)]
      [("title", Value.str ""), ("version_count", Value.dec 3)] "doi"
      (by decide)
      (by simp [convertTypesForDynamoDB])
      (Or.inl (by decide))
  · exact convertTypes_drop_and_total_behaviour.2.2
      [("doi", Value.none), ("authors", Value.list []),
       ("title", Value.str ""), ("version_count", Value.num 3)]
      [("title", Value.str ""), ("version_count", Value.dec 3)] "title" ""
      (by decide)
      (by simp [convertTypesForDynamoDB])
      (by decide)

/-- Counterexample for C4 as frozen: an empty-string field is NOT dropped
from the converted item, and a record holding a list of an object followed by
a string makes the conversion raise rather than return normally. -/
theorem convertTypes_keeps_empty_string_and_raises :
    convertTypesForDynamoDB [("journal_ref", Value.str "")]
      = some [("journal_ref", Value.str "")]
    ∧ convertTypesForDynamoDB
        [("versions", Value.list [Value.dict [("version", Value.str "v1")],
                                  Value.str "x"])]
      = Option.none := by
  constructor
  · simp [convertTypesForDynamoDB]
  · simp [convertTypesForDynamoDB, convertDictList]

/-- Split a character list at every occurrence of the separator, keeping
empty pieces: the behaviour of Python str.split with an explicit single
character separator. -/
def splitListOn (sep : Char) : List Char → List (List Char)
  | [] => [[]]
  | c :: rest =>
      let r := splitListOn sep rest
      if c = sep then [] :: r
      else
        match r with
        | [] => [[c]]
        | piece :: more => (c :: piece) :: more

/-- Python s.split(sep) for a one-character separator. -/
def pySplit (s : String) (sep : Char) : List String :=
  (splitListOn sep s.data).map String.mk

/-- Split at every character satisfying the predicate. -/
def splitListOnP (p : Char → Bool) : List Char → List (List Char)
  | [] => [[]]
  | c :: rest =>
      let r := splitListOnP p rest
      if p c then [] :: r
      else
        match r with
        | [] => [[c]]
        | piece :: more => (c :: piece) :: more

/-- Python s.split() with no argument: split on whitespace runs, dropping
empty pieces. -/
def pySplitWs (s : String) : List String :=
  ((splitListOnP Char.isWhitespace s.data).filter (fun l => !(l.isEmpty))).map String.mk

/-- Python int(s) restricted to plain digit strings, as the date parser
needs: None when the piece is empty or has a non-digit. -/
def charsToNat? (l : List Char) : Option ℕ :=
  if l.isEmpty = true then Option.none
  else if l.all Char.isDigit then
    some (l.foldl (fun n c => 10 * n + (c.toNat - 48)) 0)
  else Option.none

def strToNat? (s : String) : Option ℕ := charsToNat? s.data

/-- ArxivMetadataTransformer._clean_text (transformer.py lines 233 to 248)
on an actual string: collapse every whitespace run to a single space and trim
the ends. -/
def cleanTextStr (s : String) : String :=
  String.intercalate " " (pySplitWs s)

/-- ArxivMetadataTransformer._clean_text on an arbitrary value: a falsy
value yields the empty string, a truthy non-string raises (AttributeError on
.split), modelled by Option.none. -/
def cleanTextVal (v : Value) : Option String :=
  if truthy v = false then some ""
  else
    match v with
    | .str s => some (cleanTextStr s)
    | _ => Option.none

/-- An instant parsed from a version timestamp, at zone offset zero:
calendar date plus second-of-day. -/
structure PInst where
  year : ℕ
  month : ℕ
  day : ℕ
  sod : ℕ
  deriving DecidableEq

def isLeapYear (y : ℕ) : Bool :=
  (y % 4 == 0 && y % 100 != 0) || y % 400 == 0

def daysInMonth (y m : ℕ) : ℕ :=
  match m with
  | 1 => 31
  | 2 => if isLeapYear y then 29 else 28
  | 3 => 31
  | 4 => 30
  | 5 => 31
  | 6 => 30
  | 7 => 31
  | 8 => 31
  | 9 => 30
  | 10 => 31
  | 11 => 30
  | 12 => 31
  | _ => 0

/-- Days in the months before month m of a non-leap year. -/
def cumMonthDays (m : ℕ) : ℕ :=
  match m with
  | 1 => 0
  | 2 => 31
  | 3 => 59
  | 4 => 90
  | 5 => 120
  | 6 => 151
  | 7 => 181
  | 8 => 212
  | 9 => 243
  | 10 => 273
  | 11 => 304
  | 12 => 334
  | _ => 0

/-- Day number of a proleptic-Gregorian calendar date, counted from
0001-01-01 as day zero. -/
def daysFromCivil (y m d : ℕ) : ℕ :=
  365 * (y - 1) + (y - 1) / 4 - (y - 1) / 100 + (y - 1) / 400
    + cumMonthDays m + (if 3 ≤ m ∧ isLeapYear y then 1 else 0) + (d - 1)

/-- The instant as a number of seconds, for comparing and subtracting
parsed timestamps. -/
def PInst.secs (t : PInst) : ℤ :=
  (daysFromCivil t.year t.month t.day : ℤ) * 86400 + t.sod

def pad2 (n : ℕ) : String :=
  if n < 10 then "0" ++ toString n else toString n

def pad4 (n : ℕ) : String :=
  if n < 10 then "000" ++ toString n
  else if n < 100 then "00" ++ toString n
  else if n < 1000 then "0" ++ toString n
  else toString n

/-- The .date().isoformat() of an instant at zone offset zero. -/
def PInst.dateIso (t : PInst) : String :=
  pad4 t.year ++ "-" ++ pad2 t.month ++ "-" ++ pad2 t.day

def monthNumber (s : String) : Option ℕ :=
  match s with
  | "Jan" => some 1
  | "Feb" => some 2
  | "Mar" => some 3
  | "Apr" => some 4
  | "May" => some 5
  | "Jun" => some 6
  | "Jul" => some 7
  | "Aug" => some 8
  | "Sep" => some 9
  | "Oct" => some 10
  | "Nov" => some 11
  | "Dec" => some 12
  | _ => Option.none

def weekdayTokens : List String :=
  ["Mon,", "Tue,", "Wed,", "Thu,", "Fri,", "Sat,", "Sun,"]

/-- Modelled from the library call pendulum.from_format(created,
"ddd, D MMM YYYY HH:mm:ss z") used by the transformer (an external
dependency, not repository code): parse an RFC-2822-like version timestamp,
restricted in this model to the GMT/UTC zone abbreviations that arXiv
version records carry, validating day-of-week token, calendar bounds and
time bounds.  Option.none models a parse exception. -/
def parseVersionCreated (s : String) : Option PInst :=
  match pySplit s ' ' with
  | [wd, ds, ms, ys, ts, zs] =>
      if weekdayTokens.contains wd && (zs == "GMT" || zs == "UTC") then
        match strToNat? ds, monthNumber ms, strToNat? ys with
        | some d, some mo, some y =>
            match pySplit ts ':' with
            | [hs, mins, ss] =>
                match strToNat? hs, strToNat? mins, strToNat? ss with
                | some hh, some mm, some sec =>
                    if 1 ≤ y ∧ 1 ≤ d ∧ d ≤ daysInMonth y mo ∧ hh < 24 ∧ mm < 60 ∧ sec < 60
                    then some ⟨y, mo, d, hh * 3600 + mm * 60 + sec⟩
                    else Option.none
                | _, _, _ => Option.none
            | _ => Option.none
        | _, _, _ => Option.none
      else Option.none
  | _ => Option.none

/-- Modelled from the library call pendulum.parse used for the update_date
fallback chain (an external dependency, not repository code), restricted in
this model to plain ISO calendar dates YYYY-MM-DD. -/
def parseIsoDate (s : String) : Option PInst :=
  match pySplit s '-' with
  | [ys, ms, ds] =>
      if ys.length == 4 && ms.length == 2 && ds.length == 2 then
        match strToNat? ys, strToNat? ms, strToNat? ds with
        | some y, some mo, some d =>
            if 1 ≤ y ∧ 1 ≤ mo ∧ mo ≤ 12 ∧ 1 ≤ d ∧ d ≤ daysInMonth y mo
            then some ⟨y, mo, d, 0⟩
            else Option.none
        | _, _, _ => Option.none
      else Option.none
  | _ => Option.none

/-- pendulum.parse applied to an arbitrary field value: raises on a
non-string, which the inner try of the update_date loop catches. -/
def parseIsoValue (v : Value) : Option PInst :=
  match v with
  | .str s => parseIsoDate s
  | _ => Option.none

example : parseVersionCreated "Mon, 1 Jan 2020 00:00:00 GMT" = some ⟨2020, 1, 1, 0⟩ := by
  decide

example : parseIsoDate "2020-01-01" = some ⟨2020, 1, 1, 0⟩ := by decide

example : (⟨2020, 1, 1, 0⟩ : PInst).dateIso = "2020-01-01" := by decide

/-- The institution extraction block of ArxivMetadataTransformer._clean_record
(transformer.py lines 180 to 187), on a submitter string already known to
contain an at sign: take the piece after the first angle bracket (IndexError
when there is none, caught, yielding the empty string), cut at the closing
bracket, take the piece after the first at sign (IndexError when none,
caught), and keep the first dot-separated label of the domain. -/
def extractInstitution (s : String) : String :=
  match pySplit s '<' with
  | _ :: second :: _ =>
      let email := (pySplit second '>').headD ""
      match pySplit email '@' with
      | _ :: domain :: _ => (pySplit domain '.').headD ""
      | _ => ""
  | _ => ""

/-- The institution field as _clean_record computes it from the raw record:
the guard is membership of the at sign in the submitter value, which raises
TypeError (uncaught) when the submitter is a number, boolean or None; for a
list or dict submitter the attribute error inside the try is caught and the
institution is empty either way. -/
def extractInstitutionVal (r : Dict) : Option Value :=
  match dictGet r "submitter" with
  | Option.none => some (.str "")
  | some (.str s) =>
      if s.data.contains '@' then some (.str (extractInstitution s)) else some (.str "")
  | some (.list _) => some (.str "")
  | some (.dict _) => some (.str "")
  | some _ => Option.none

/-- The author projection of one authors_parsed element (transformer.py lines
170 to 176): lists of length at least two become last/first-name objects,
anything else is silently skipped. -/
def parseAuthor : Value → Option Value
  | .list (ln :: fn :: _) => some (.dict [("last_name", ln), ("first_name", fn)])
  | _ => Option.none

/-- The optional authors item of the cleaned record (transformer.py lines
168 to 177): present exactly when authors_parsed is present and a list. -/
def extractAuthorsSeg (a : Dict) : Dict :=
  match dictGet a "authors_parsed" with
  | some (.list aps) => [("authors", .list (aps.filterMap parseAuthor))]
  | _ => []

/-- The category split (transformer.py line 160): a truthy non-string
categories value raises (uncaught) on .split; a falsy one yields the empty
sequence. -/
def extractCategories (a : Dict) : Option (List String) :=
  if truthy (pyGet a "categories") = true then
    match pyGetD a "categories" (.str "") with
    | .str s => some (pySplitWs s)
    | _ => Option.none
  else some []

/-- The per-version date comprehension (transformer.py lines 199 to 202):
every element must be a dict carrying a parseable created string, otherwise
the comprehension raises and is caught, leaving the date list empty. -/
def parseVersionsList (vs : List Value) : Option (List PInst) :=
  vs.mapM
    (fun v =>
      match v with
      | .dict fs =>
          match dictGet fs "created" with
          | some (.str s) => parseVersionCreated s
          | _ => Option.none
      | _ => Option.none)

def pinstLe (a b : PInst) : Prop := a.secs ≤ b.secs

instance : DecidableRel pinstLe := fun a b => inferInstanceAs (Decidable (a.secs ≤ b.secs))

instance : IsTotal PInst pinstLe := ⟨fun a b => Int.le_total a.secs b.secs⟩

instance : IsTrans PInst pinstLe := ⟨fun _ _ _ h1 h2 => le_trans h1 h2⟩

/-- version_dates.sort(): sort the parsed instants chronologically. -/
def sortInstants (ds : List PInst) : List PInst :=
  List.insertionSort pinstLe ds

/-- The versions block of _clean_record (transformer.py lines 192 to 210):
store the raw versions list and its length; parse and sort the version
timestamps; a parse failure leaves the date list empty, so the unconditional
version_dates[0] read raises IndexError, the outer handler catches it and
cleaning fails (there is NO fallback for submitted_date).  published_date is
the latest date only when the record is published. -/
def versionsSeg (r : Dict) (isPub : Bool) : Option Dict :=
  match dictGet r "versions" with
  | some (.list vs) =>
      match parseVersionsList vs with
      | Option.none => Option.none
      | some ds =>
          match sortInstants ds with
          | [] => Option.none
          | d0 :: rest =>
              some [("versions", .list vs),
                    ("version_count", .num vs.length),
                    ("submitted_date", .str d0.dateIso),
                    ("published_date",
                      if isPub then .str ((d0 :: rest).getLast (by simp)).dateIso
                      else Value.none)]
  | _ => some []

/-- The update_date fallback chain (transformer.py lines 213 to 225): the
first of arxiv.update_date, arxiv.datestamp, arxivRaw.datestamp that is
present and parses; parse failures are caught and the chain continues; when
none parses the field stays None. -/
def firstParsedDate : List (Option Value) → Value
  | [] => Value.none
  | Option.none :: rest => firstParsedDate rest
  | some v :: rest =>
      match parseIsoValue v with
      | some t => .str t.dateIso
      | Option.none => firstParsedDate rest

def extractUpdateDate (a r : Dict) : Value :=
  firstParsedDate [dictGet a "update_date", dictGet a "datestamp", dictGet r "datestamp"]

/-- ArxivMetadataTransformer._clean_record (transformer.py lines 132 to 231):
combine one arXiv-format record and one arXivRaw-format record into a cleaned
item.  Option.none models both the explicit skip (missing id) and an uncaught
exception inside the outer try (which the method turns into returning None).
The wall-clock timestamp pendulum.now().isoformat() is the parameter now. -/
def cleanRecord (a r : Dict) (now : String) : Option Dict :=
  if truthy (pyGet a "id") = false then Option.none
  else
    match cleanTextVal (pyGetD a "title" (.str "")) with
    | Option.none => Option.none
    | some title =>
    match cleanTextVal (pyGetD a "abstract" (.str "")) with
    | Option.none => Option.none
    | some abstract =>
    match extractCategories a with
    | Option.none => Option.none
    | some cats =>
    match extractInstitutionVal r with
    | Option.none => Option.none
    | some inst =>
    match versionsSeg r (truthy (pyGetD a "journal_ref" (.str ""))) with
    | Option.none => Option.none
    | some vseg =>
        some ([("paper_id", pyGet a "id"),
               ("title", .str title),
               ("abstract", .str abstract),
               ("doi", pyGetD a "doi" (.str "")),
               ("upload_db_time", .str now),
               ("categories", .list (cats.map Value.str)),
               ("primary_category",
                 match cats with
                 | [] => .str ""
                 | c :: _ => .str c),
               ("journal_ref", pyGetD a "journal_ref" (.str "")),
               ("is_published", .bool (truthy (pyGetD a "journal_ref" (.str ""))))]
              ++ extractAuthorsSeg a
              ++ [("institution", inst)]
              ++ vseg
              ++ [("update_date", extractUpdateDate a r)])

/-- Python len(v): defined for strings, lists and dicts; raises TypeError
otherwise. -/
def pyLen : Value → Option ℕ
  | .str s => some s.length
  | .list vs => some vs.length
  | .dict fs => some fs.length
  | _ => Option.none

/-- The date list built inside the try of _calculate_update_frequency: when
versions is a string or dict, iteration yields strings on which the created
subscript raises (caught); when it is a list, every element must parse. -/
def freqTryDates : Value → Option (List PInst)
  | .list vs => parseVersionsList vs
  | _ => Option.none

/-- ArxivMetadataTransformer._calculate_update_frequency (transformer.py
lines 250 to 274): None when there is at most one version; otherwise the
span from earliest to latest parsed date in days divided by one less than
the number of dates; any exception inside the try yields None.  The outer
Option models the uncaught TypeError of len() on a non-sized versions value;
the inner Option is the Python None result. -/
def calculateUpdateFrequency (r : Dict) : Option (Option ℚ) :=
  match pyLen (pyGetD r "versions" (.list [])) with
  | Option.none => Option.none
  | some n =>
      if n ≤ 1 then some Option.none
      else
        match freqTryDates (pyGetD r "versions" (.list [])) with
        | Option.none => some Option.none
        | some dates =>
            match sortInstants dates with
            | [] => some Option.none
            | d0 :: rest =>
                some (some
                  ((((((d0 :: rest).getLast (by simp)).secs - d0.secs : ℤ) : ℚ) / 86400)
                    / ((dates.length : ℚ) - 1)))

example :
    calculateUpdateFrequency
      [("versions", .list
        [.dict [("version", .str "v1"), ("created", .str "Mon, 1 Jan 2020 00:00:00 GMT")],
         .dict [("version", .str "v2"), ("created", .str "Tue, 2 Jan 2020 00:00:00 GMT")]])]
      ≠ some Option.none := by decide

example : calculateUpdateFrequency [] = some Option.none := by decide

theorem dictGet_append_none (l1 l2 : Dict) (k : String)
    (h : dictGet l1 k = Option.none) :
    dictGet (l1 ++ l2) k = dictGet l2 k := by
  induction l1 with
  | nil => rfl
  | cons kv rest ih =>
      obtain ⟨k2, v2⟩ := kv
      by_cases h2 : k2 = k
      · simp only [dictGet, if_pos h2] at h
        cases h
      · simp only [dictGet, if_neg h2] at h
        simp only [List.cons_append, dictGet, if_neg h2]
        exact ih h

theorem dictGet_append (l1 l2 : Dict) (k : String) :
    dictGet (l1 ++ l2) k
      = match dictGet l1 k with
        | some v => some v
        | Option.none => dictGet l2 k := by
  induction l1 with
  | nil => rfl
  | cons kv rest ih =>
      obtain ⟨k2, v2⟩ := kv
      by_cases h : k2 = k
      · simp [dictGet, h]
      · simp only [List.cons_append, dictGet, if_neg h]
        exact ih

/-- Decompose a successful record cleaning into its parts and the exact
layout of the produced item. -/
theorem cleanRecord_parts (a r : Dict) (now : String) (item : Dict)
    (h : cleanRecord a r now = some item) :
    ∃ title abstract cats inst vseg,
      truthy (pyGet a "id") = true
      ∧ cleanTextVal (pyGetD a "title" (.str "")) = some title
      ∧ cleanTextVal (pyGetD a "abstract" (.str "")) = some abstract
      ∧ extractCategories a = some cats
      ∧ extractInstitutionVal r = some inst
      ∧ versionsSeg r (truthy (pyGetD a "journal_ref" (.str ""))) = some vseg
      ∧ item
        = ([("paper_id", pyGet a "id"),
            ("title", .str title),
            ("abstract", .str abstract),
            ("doi", pyGetD a "doi" (.str "")),
            ("upload_db_time", .str now),
            ("categories", .list (cats.map Value.str)),
            ("primary_category",
              match cats with
              | [] => .str ""
              | c :: _ => .str c),
            ("journal_ref", pyGetD a "journal_ref" (.str "")),
            ("is_published", .bool (truthy (pyGetD a "journal_ref" (.str ""))))]
           ++ extractAuthorsSeg a
           ++ [("institution", inst)]
           ++ vseg
           ++ [("update_date", extractUpdateDate a r)]) := by
  unfold cleanRecord at h
  by_cases hid : truthy (pyGet a "id") = false
  · rw [if_pos hid] at h
    cases h
  · rw [if_neg hid] at h
    cases htitle : cleanTextVal (pyGetD a "title" (.str "")) with
    | none => rw [htitle] at h; cases h
    | some title =>
        rw [htitle] at h
        cases habs : cleanTextVal (pyGetD a "abstract" (.str "")) with
        | none => rw [habs] at h; cases h
        | some abstract =>
            rw [habs] at h
            cases hcats : extractCategories a with
            | none => rw [hcats] at h; cases h
            | some cats =>
                rw [hcats] at h
                cases hinst : extractInstitutionVal r with
                | none => rw [hinst] at h; cases h
                | some inst =>
                    rw [hinst] at h
                    cases hvseg : versionsSeg r (truthy (pyGetD a "journal_ref" (.str "")))
                      with
                    | none => rw [hvseg] at h; cases h
                    | some vseg =>
                        rw [hvseg] at h
                        cases h
                        refine ⟨title, abstract, cats, inst, vseg, ?_,
                          rfl, rfl, rfl, rfl, rfl, rfl⟩
                        revert hid
                        cases truthy (pyGet a "id") <;> simp

/-- The fixed nine-field head of every cleaned item holds none of the
optional trailing keys. -/
theorem dictGet_core_none (pid t ab doi up cat pc jr ip : Value) (k : String)
    (hk : k ∉ (["paper_id", "title", "abstract", "doi", "upload_db_time",
                "categories", "primary_category", "journal_ref",
                "is_published"] : List String)) :
    dictGet [("paper_id", pid), ("title", t), ("abstract", ab), ("doi", doi),
             ("upload_db_time", up), ("categories", cat), ("primary_category", pc),
             ("journal_ref", jr), ("is_published", ip)] k = Option.none := by
  simp only [List.mem_cons, List.not_mem_nil, or_false, not_or] at hk
  obtain ⟨h1, h2, h3, h4, h5, h6, h7, h8, h9⟩ := hk
  simp only [dictGet,
    if_neg (fun hh : "paper_id" = k => h1 hh.symm),
    if_neg (fun hh : "title" = k => h2 hh.symm),
    if_neg (fun hh : "abstract" = k => h3 hh.symm),
    if_neg (fun hh : "doi" = k => h4 hh.symm),
    if_neg (fun hh : "upload_db_time" = k => h5 hh.symm),
    if_neg (fun hh : "categories" = k => h6 hh.symm),
    if_neg (fun hh : "primary_category" = k => h7 hh.symm),
    if_neg (fun hh : "journal_ref" = k => h8 hh.symm),
    if_neg (fun hh : "is_published" = k => h9 hh.symm)]

theorem dictGet_extractAuthorsSeg_ne (a : Dict) (k : String) (hk : k ≠ "authors") :
    dictGet (extractAuthorsSeg a) k = Option.none := by
  unfold extractAuthorsSeg
  split
  · simp only [dictGet, if_neg (fun hh : "authors" = k => hk hh.symm)]
  · rfl

/-- Modelled from the spec's words, for comparison with the code (claim C6):
take the substring between angle brackets IF PRESENT, else the WHOLE
submitter string; split on the at sign, take the domain, keep its first
dot-separated label. -/
def specInstitution (s : String) : String :=
  match pySplit s '<' with
  | _ :: second :: _ =>
      (match pySplit ((pySplit second '>').headD "") '@' with
       | _ :: domain :: _ => (pySplit domain '.').headD ""
       | _ => "")
  | _ =>
      (match pySplit s '@' with
       | _ :: domain :: _ => (pySplit domain '.').headD ""
       | _ => "")

/-- C6, amended: institution extraction is total and never raises on string
submitters; on the bracketed path it is the first dot-label of the domain
part of the bracketed substring; when the submitter has NO opening angle
bracket the extraction fails with IndexError, is caught, and yields the empty
string - the whole-string path the claim describes does not exist.  Any
failure at a later step also yields the empty string, and the cleaned item
carries exactly this value in its institution field. -/
theorem extractInstitution_behaviour :
    (∀ s : String, (pySplit s '<').length ≤ 1 → extractInstitution s = "")
    ∧ (∀ (s x y : String) (zr : List String) (e d : String) (dr : List String),
        pySplit s '<' = x :: y :: zr →
        pySplit ((pySplit y '>').headD "") '@' = e :: d :: dr →
        extractInstitution s = (pySplit d '.').headD "")
    ∧ (∀ (s x y : String) (zr : List String),
        pySplit s '<' = x :: y :: zr →
        (pySplit ((pySplit y '>').headD "") '@').length ≤ 1 →
        extractInstitution s = "")
    ∧ (∀ (r : Dict) (s : String), dictGet r "submitter" = some (.str s) →
        s.data.contains '@' = true →
        extractInstitutionVal r = some (.str (extractInstitution s)))
    ∧ (∀ (r : Dict) (s : String), dictGet r "submitter" = some (.str s) →
        s.data.contains '@' = false →
        extractInstitutionVal r = some (.str ""))
    ∧ (∀ (a r : Dict) (now : String) (item : Dict) (inst : Value),
        cleanRecord a r now = some item →
        extractInstitutionVal r = some inst →
        dictGet item "institution" = some inst) := by
  refine ⟨?_, ?_, ?_, ?_, ?_, ?_⟩
  · intro s hlen
    unfold extractInstitution
    cases hsp : pySplit s '<' with
    | nil => rfl
    | cons x t =>
        cases t with
        | nil => rfl
        | cons y zr =>
            rw [hsp] at hlen
            simp at hlen
  · intro s x y zr e d dr h1 h2
    simp only [extractInstitution, h1, h2]
  · intro s x y zr h1 hlen
    simp only [extractInstitution, h1]
    cases hsp : pySplit ((pySplit y '>').headD "") '@' with
    | nil => rfl
    | cons e t =>
        cases t with
        | nil => rfl
        | cons d dr =>
            rw [hsp] at hlen
            simp at hlen
  · intro r s hsub hat
    simp only [extractInstitutionVal, hsub, hat]
    rw [if_pos trivial]
  · intro r s hsub hat
    simp only [extractInstitutionVal, hsub, hat]
    simp
  · intro a r now item inst hclean hinst
    obtain ⟨title, abstract, cats, inst2, vseg, hid, ht, hab, hc, hi, hv, hitem⟩ :=
      cleanRecord_parts a r now item hclean
    have hinst2 : inst2 = inst := by
      rw [hinst] at hi
      exact (Option.some_inj.mp hi).symm
    subst hinst2
    subst hitem
    rw [List.append_assoc, List.append_assoc, List.append_assoc,
      dictGet_append_none _ _ _ (dictGet_core_none _ _ _ _ _ _ _ _ _ _ (by decide)),
      dictGet_append_none _ _ _ (dictGet_extractAuthorsSeg_ne a _ (by decide))]
    simp [dictGet]

/-- Witness for C6 at concrete submitters: the bracketed path extracts the
first domain label, and the extraction value is what the record field gets. -/
theorem extractInstitution_behaviour_witness :
    extractInstitution "John Doe <jdoe@mit.edu>" = (pySplit "mit.edu" '.').headD ""
    ∧ extractInstitutionVal [("submitter", .str "John Doe <jdoe@mit.edu>")]
        = some (.str (extractInstitution "John Doe <jdoe@mit.edu>")) := by
  constructor
  · exact extractInstitution_behaviour.2.1 "John Doe <jdoe@mit.edu>"
      "John Doe " "jdoe@mit.edu>" [] "jdoe" "mit.edu" [] (by decide) (by decide)
  · exact extractInstitution_behaviour.2.2.2.1
      [("submitter", .str "John Doe <jdoe@mit.edu>")]
      "John Doe <jdoe@mit.edu>" (by decide) (by decide)

/-- Counterexample for C6 as frozen: a submitter with an at sign but no
angle brackets yields the empty institution (the IndexError of split("<")[1]
is caught), not the first domain label of the whole string as the claim
describes. -/
theorem extractInstitution_whole_string_counterexample :
    ("john@mit.edu".data.contains '@') = true
    ∧ extractInstitution "john@mit.edu" = ""
    ∧ specInstitution "john@mit.edu" = "mit"
    ∧ ("" : String) ≠ "mit" := by
  exact ⟨by decide, by decide, by decide, by decide⟩

/-- The day gaps between consecutive entries of a date list. -/
def secsDiffDays : List PInst → List ℚ
  | a :: b :: rest => (((b.secs - a.secs : ℤ) : ℚ) / 86400) :: secsDiffDays (b :: rest)
  | _ => []

/-- The consecutive day gaps of a list telescope to the overall span. -/
theorem secsDiffDays_sum :
    ∀ (l : List PInst) (d0 : PInst),
      (secsDiffDays (d0 :: l)).sum
        = ((((d0 :: l).getLast (by simp)).secs - d0.secs : ℤ) : ℚ) / 86400 := by
  intro l
  induction l with
  | nil =>
      intro d0
      simp [secsDiffDays, List.getLast]
  | cons d1 rest ih =>
      intro d0
      show (((d1.secs - d0.secs : ℤ) : ℚ) / 86400) + (secsDiffDays (d1 :: rest)).sum = _
      rw [ih d1]
      rw [List.getLast_cons (by simp : d1 :: rest ≠ [])]
      rw [div_add_div_same]
      push_cast
      ring_nf

theorem parseVersionsList_length (vs : List Value) (ds : List PInst)
    (h : parseVersionsList vs = some ds) : ds.length = vs.length := by
  induction vs generalizing ds with
  | nil =>
      cases h
      rfl
  | cons v rest ih =>
      rw [parseVersionsList, List.mapM_cons] at h
      cases hf : (match v with
        | Value.dict fs =>
            match dictGet fs "created" with
            | some (.str s) => parseVersionCreated s
            | _ => Option.none
        | _ => (Option.none : Option PInst)) with
      | none => rw [hf] at h; cases h
      | some t =>
          rw [hf] at h
          simp only [Option.bind_eq_bind, Option.some_bind] at h
          cases hrest : rest.mapM (fun v => match v with
            | Value.dict fs =>
                match dictGet fs "created" with
                | some (.str s) => parseVersionCreated s
                | _ => Option.none
            | _ => (Option.none : Option PInst)) with
          | none => rw [hrest] at h; cases h
          | some ts =>
              rw [hrest] at h
              simp only [Option.bind_eq_bind, Option.some_bind, Option.pure_def] at h
              cases h
              simp only [List.length_cons]
              rw [ih ts hrest]

/-- C8: update_frequency is None when there is at most one version; with
more than one version and all timestamps parsing, it is the span from the
earliest to the latest parsed date in days divided by one less than the
number of versions, which equals the mean of the day gaps between
consecutive sorted version dates; and in the not-applicable case the result
is Python None, never the number zero. -/
theorem calculateUpdateFrequency_spec :
    (∀ (r : Dict) (vs : List Value),
        pyGetD r "versions" (.list []) = Value.list vs → vs.length ≤ 1 →
        calculateUpdateFrequency r = some Option.none)
    ∧ (∀ (r : Dict) (vs : List Value) (ds : List PInst),
        pyGetD r "versions" (.list []) = Value.list vs →
        1 < vs.length →
        parseVersionsList vs = some ds →
        ∃ d0 rest, sortInstants ds = d0 :: rest
          ∧ calculateUpdateFrequency r
              = some (some
                  ((((((d0 :: rest).getLast (by simp)).secs - d0.secs : ℤ) : ℚ) / 86400)
                    / ((ds.length : ℚ) - 1)))
          ∧ (((((d0 :: rest).getLast (by simp)).secs - d0.secs : ℤ) : ℚ) / 86400)
                / ((ds.length : ℚ) - 1)
              = (secsDiffDays (d0 :: rest)).sum / ((ds.length : ℚ) - 1)) := by
  constructor
  · intro r vs hv hlen
    unfold calculateUpdateFrequency
    rw [hv]
    simp [pyLen, hlen]
  · intro r vs ds hv hlen hparse
    have hds : ds.length = vs.length := parseVersionsList_length vs ds hparse
    have hsortlen : (sortInstants ds).length = ds.length :=
      (List.perm_insertionSort pinstLe ds).length_eq
    cases hs : sortInstants ds with
    | nil =>
        rw [hs] at hsortlen
        simp at hsortlen
        omega
    | cons d0 rest =>
        refine ⟨d0, rest, rfl, ?_, ?_⟩
        · have h2 : ¬ (vs.length ≤ 1) := by omega
          unfold calculateUpdateFrequency
          rw [hv]
          simp [pyLen, freqTryDates, hparse, hs, h2]
        · rw [secsDiffDays_sum rest d0]

/-- Witness for C8: a one-version record gets None, a two-version record
one day apart gets the span-over-count value. -/
theorem calculateUpdateFrequency_spec_witness :
    calculateUpdateFrequency
      [("versions", .list
        [.dict [("version", .str "v1"), ("created", .str "Mon, 1 Jan 2020 00:00:00 GMT")]])]
      = some Option.none
    ∧ (∃ d0 rest,
        sortInstants [⟨2020, 1, 1, 0⟩, ⟨2020, 1, 2, 0⟩] = d0 :: rest
        ∧ calculateUpdateFrequency
            [("versions", .list
              [.dict [("version", .str "v1"),
                      ("created", .str "Mon, 1 Jan 2020 00:00:00 GMT")],
               .dict [("version", .str "v2"),
                      ("created", .str "Tue, 2 Jan 2020 00:00:00 GMT")]])]
            = some (some
                ((((((d0 :: rest).getLast (by simp)).secs - d0.secs : ℤ) : ℚ) / 86400)
                  / ((([⟨2020, 1, 1, 0⟩, ⟨2020, 1, 2, 0⟩] : List PInst).length : ℚ) - 1)))
        ∧ (((((d0 :: rest).getLast (by simp)).secs - d0.secs : ℤ) : ℚ) / 86400)
              / ((([⟨2020, 1, 1, 0⟩, ⟨2020, 1, 2, 0⟩] : List PInst).length : ℚ) - 1)
            = (secsDiffDays (d0 :: rest)).sum
              / ((([⟨2020, 1, 1, 0⟩, ⟨2020, 1, 2, 0⟩] : List PInst).length : ℚ) - 1)) := by
  constructor
  · exact calculateUpdateFrequency_spec.1
      [("versions", .list
        [.dict [("version", .str "v1"), ("created", .str "Mon, 1 Jan 2020 00:00:00 GMT")]])]
      [.dict [("version", .str "v1"), ("created", .str "Mon, 1 Jan 2020 00:00:00 GMT")]]
      (by decide) (by decide)
  · exact calculateUpdateFrequency_spec.2
      [("versions", .list
        [.dict [("version", .str "v1"), ("created", .str "Mon, 1 Jan 2020 00:00:00 GMT")],
         .dict [("version", .str "v2"), ("created", .str "Tue, 2 Jan 2020 00:00:00 GMT")]])]
      [.dict [("version", .str "v1"), ("created", .str "Mon, 1 Jan 2020 00:00:00 GMT")],
       .dict [("version", .str "v2"), ("created", .str "Tue, 2 Jan 2020 00:00:00 GMT")]]
      [⟨2020, 1, 1, 0⟩, ⟨2020, 1, 2, 0⟩]
      (by decide) (by decide) (by decide)

theorem versionsSeg_some (r : Dict) (isPub : Bool) (vs : List Value) (ds : List PInst)
    (d0 : PInst) (rest : List PInst)
    (hv : dictGet r "versions" = some (Value.list vs))
    (hparse : parseVersionsList vs = some ds)
    (hs : sortInstants ds = d0 :: rest) :
    versionsSeg r isPub
      = some [("versions", .list vs),
              ("version_count", .num vs.length),
              ("submitted_date", .str d0.dateIso),
              ("published_date",
                if isPub then .str ((d0 :: rest).getLast (by simp)).dateIso
                else Value.none)] := by
  simp [versionsSeg, hv, hparse, hs]

/-- C5, amended: when every version timestamp of a complete pair parses, the
cleaned record exists only with submitted_date equal to the earliest parsed
version date (never null), and its update_date field is fed by the
update_date/datestamp fallback chain.  The claim's fallback of
submitted_date to update_date/datestamp/current date does not exist: when
parsing fails the record is dropped instead (see the counterexample). -/
theorem cleanRecord_submitted_date_earliest
    (a r : Dict) (now : String) (item : Dict) (vs : List Value) (ds : List PInst)
    (hv : dictGet r "versions" = some (Value.list vs))
    (hparse : parseVersionsList vs = some ds)
    (hclean : cleanRecord a r now = some item) :
    ∃ d0 rest, sortInstants ds = d0 :: rest
      ∧ dictGet item "submitted_date" = some (.str d0.dateIso)
      ∧ d0 ∈ ds
      ∧ (∀ d ∈ ds, d0.secs ≤ d.secs)
      ∧ dictGet item "update_date" = some (extractUpdateDate a r) := by
  obtain ⟨title, abstract, cats, inst, vseg, hid, ht, hab, hc, hi, hvseg, hitem⟩ :=
    cleanRecord_parts a r now item hclean
  cases hs : sortInstants ds with
  | nil =>
      rw [show versionsSeg r (truthy (pyGetD a "journal_ref" (.str ""))) = Option.none
          from by simp [versionsSeg, hv, hparse, hs]] at hvseg
      cases hvseg
  | cons d0 rest =>
      rw [versionsSeg_some r _ vs ds d0 rest hv hparse hs] at hvseg
      have hvseg2 := Option.some_inj.mp hvseg
      subst hvseg2
      subst hitem
      have hsorted : List.Sorted pinstLe (d0 :: rest) := by
        rw [← hs]
        exact List.sorted_insertionSort pinstLe ds
      have hperm : List.Perm (sortInstants ds) ds := List.perm_insertionSort pinstLe ds
      rw [hs] at hperm
      refine ⟨d0, rest, rfl, ?_, ?_, ?_, ?_⟩
      · rw [List.append_assoc, List.append_assoc, List.append_assoc,
          dictGet_append_none _ _ _ (dictGet_core_none _ _ _ _ _ _ _ _ _ _ (by decide)),
          dictGet_append_none _ _ _ (dictGet_extractAuthorsSeg_ne a _ (by decide))]
        simp [dictGet]
      · exact hperm.mem_iff.mp (List.mem_cons_self _ _)
      · intro d hd
        rcases List.mem_cons.mp (hperm.mem_iff.mpr hd) with h | h
        · rw [h]
        · exact (List.sorted_cons.mp hsorted).1 d h
      · rw [List.append_assoc, List.append_assoc, List.append_assoc,
          dictGet_append_none _ _ _ (dictGet_core_none _ _ _ _ _ _ _ _ _ _ (by decide)),
          dictGet_append_none _ _ _ (dictGet_extractAuthorsSeg_ne a _ (by decide))]
        simp [dictGet]

/-- Witness for C5 (amended) at a concrete complete pair with one version. -/
theorem cleanRecord_submitted_date_earliest_witness :
    ∃ d0 rest,
      sortInstants [⟨2020, 1, 1, 0⟩] = d0 :: rest
      ∧ dictGet
          [("paper_id", .str "1234.5678"),
           ("title", .str "Foo Bar"),
           ("abstract", .str ""),
           ("doi", .str ""),
           ("upload_db_time", .str "t0"),
           ("categories", .list [.str "cs.AI"]),
           ("primary_category", .str "cs.AI"),
           ("journal_ref", .str ""),
           ("is_published", .bool false),
           ("institution", .str ""),
           ("versions", .list [.dict [("version", .str "v1"),
                                      ("created", .str "Wed, 1 Jan 2020 00:00:00 GMT")]]),
           ("version_count", .num 1),
           ("submitted_date", .str "2020-01-01"),
           ("published_date", Value.none),
           ("update_date", Value.none)] "submitted_date"
          = some (.str d0.dateIso)
      ∧ d0 ∈ [(⟨2020, 1, 1, 0⟩ : PInst)]
      ∧ (∀ d ∈ [(⟨2020, 1, 1, 0⟩ : PInst)], d0.secs ≤ d.secs)
      ∧ dictGet
          [("paper_id", .str "1234.5678"),
           ("title", .str "Foo Bar"),
           ("abstract", .str ""),
           ("doi", .str ""),
           ("upload_db_time", .str "t0"),
           ("categories", .list [.str "cs.AI"]),
           ("primary_category", .str "cs.AI"),
           ("journal_ref", .str ""),
           ("is_published", .bool false),
           ("institution", .str ""),
           ("versions", .list [.dict [("version", .str "v1"),
                                      ("created", .str "Wed, 1 Jan 2020 00:00:00 GMT")]]),
           ("version_count", .num 1),
           ("submitted_date", .str "2020-01-01"),
           ("published_date", Value.none),
           ("update_date", Value.none)] "update_date"
          = some (extractUpdateDate
              [("id", .str "1234.5678"), ("title", .str "Foo  Bar"),
               ("categories", .str "cs.AI")]
              [("versions", .list [.dict [("version", .str "v1"),
                                          ("created", .str "Wed, 1 Jan 2020 00:00:00 GMT")]])]) := by
  exact cleanRecord_submitted_date_earliest
    [("id", .str "1234.5678"), ("title", .str "Foo  Bar"),
     ("categories", .str "cs.AI")]
    [("versions", .list [.dict [("version", .str "v1"),
                                ("created", .str "Wed, 1 Jan 2020 00:00:00 GMT")]])]
    "t0"
    [("paper_id", .str "1234.5678"),
     ("title", .str "Foo Bar"),
     ("abstract", .str ""),
     ("doi", .str ""),
     ("upload_db_time", .str "t0"),
     ("categories", .list [.str "cs.AI"]),
     ("primary_category", .str "cs.AI"),
     ("journal_ref", .str ""),
     ("is_published", .bool false),
     ("institution", .str ""),
     ("versions", .list [.dict [("version", .str "v1"),
                                ("created", .str "Wed, 1 Jan 2020 00:00:00 GMT")]]),
     ("version_count", .num 1),
     ("submitted_date", .str "2020-01-01"),
     ("published_date", Value.none),
     ("update_date", Value.none)]
    [.dict [("version", .str "v1"), ("created", .str "Wed, 1 Jan 2020 00:00:00 GMT")]]
    [⟨2020, 1, 1, 0⟩]
    (by decide) (by decide) (by decide)

/-- Counterexample for C5 as frozen: a complete pair whose single version
timestamp does not parse, while a perfectly parseable datestamp is present
on the arXiv-format record, produces NO output record at all - cleaning
fails instead of falling back to the datestamp or the current date. -/
theorem cleanRecord_no_submitted_date_fallback :
    cleanRecord
      [("id", .str "1234.5678"), ("datestamp", .str "2020-01-01")]
      [("submitter", .str "x"),
       ("versions", .list [.dict [("version", .str "v1"), ("created", .str "garbage")]])]
      "t0"
      = Option.none
    ∧ dictGet [("id", .str "1234.5678"), ("datestamp", .str "2020-01-01")] "datestamp"
        = some (.str "2020-01-01")
    ∧ (parseIsoValue (.str "2020-01-01")).isSome = true
    ∧ truthy (pyGet [("id", .str "1234.5678"), ("datestamp", .str "2020-01-01")] "id")
        = true := by
  exact ⟨by decide, by decide, by decide, by decide⟩

/-- The batch slicing loop of PersistenceWriter.write (writer.py lines 87 to
91): fixed-size contiguous slices of the input in order.  A zero batch size
(which would make the Python range raise) yields no batches in this model. -/
def makeBatches (l : List Dict) (n : ℕ) : List (List Dict) :=
  if h : n = 0 ∨ l = [] then [] else l.take n :: makeBatches (l.drop n) n
termination_by l.length
decreasing_by
  push_neg at h
  have h1 : l.length ≠ 0 := by
    intro hl
    exact h.2 (List.length_eq_zero.mp hl)
  simp only [List.length_drop]
  omega

theorem makeBatches_cons (l : List Dict) (n : ℕ) (hn : n ≠ 0) (hl : l ≠ []) :
    makeBatches l n = l.take n :: makeBatches (l.drop n) n := by
  rw [makeBatches]
  rw [dif_neg]
  push_neg
  exact ⟨hn, hl⟩

theorem makeBatches_nil (n : ℕ) : makeBatches [] n = [] := by
  rw [makeBatches]
  simp

/-- The batches are contiguous and order-preserving: concatenated back they
give the input. -/
theorem makeBatches_join (n : ℕ) (hn : n ≠ 0) :
    ∀ l : List Dict, (makeBatches l n).flatten = l := by
  have haux : ∀ (m : ℕ) (l : List Dict), l.length ≤ m → (makeBatches l n).flatten = l := by
    intro m
    induction m with
    | zero =>
        intro l hl
        have h0 : l = [] := by
          cases l with
          | nil => rfl
          | cons x t => simp at hl
        subst h0
        rw [makeBatches_nil]
        rfl
    | succ m ih =>
        intro l hl
        by_cases hle : l = []
        · subst hle
          rw [makeBatches_nil]
          rfl
        · rw [makeBatches_cons l n hn hle]
          rw [List.flatten_cons]
          rw [ih (l.drop n) ?_]
          · exact List.take_append_drop n l
          · have h1 : l.length ≠ 0 := by
              intro hz
              exact hle (List.length_eq_zero.mp hz)
            simp only [List.length_drop]
            omega
  intro l
  exact haux l.length l (le_refl _)

/-- The per-batch outcome counts of one write run. -/
structure BatchResult where
  new_records : ℕ
  updated_records : ℕ
  failed_records : ℕ
  deriving DecidableEq

def brAdd (x y : BatchResult) : BatchResult :=
  ⟨x.new_records + y.new_records, x.updated_records + y.updated_records,
   x.failed_records + y.failed_records⟩

/-- The Python batch queue list(enumerate(batches)) (writer.py line 101). -/
def enumBatches (i : ℕ) : List (List Dict) → List (ℕ × List Dict)
  | [] => []
  | b :: bs => (i, b) :: enumBatches (i + 1) bs

/-- What one handled batch future contributes to the final statistics
(writer.py lines 121 to 147): its counts on success, its full record count
as failures when it raised. -/
def dispatchContribution (f : ℕ → Except Unit BatchResult) (ib : ℕ × List Dict) :
    BatchResult :=
  match f ib.1 with
  | Except.ok c => c
  | Except.error _ => ⟨0, 0, ib.2.length⟩

/-- The statistics accumulated over the handled batch futures, in the order
they are handled.  Each submitted batch is handled exactly once by the
completion loop of PersistenceWriter.write; since the accumulation is a sum
of naturals, the totals do not depend on the completion order, which the
theorems below make explicit by quantifying over every permutation of the
batch queue. -/
def dispatchStats (f : ℕ → Except Unit BatchResult) :
    List (ℕ × List Dict) → BatchResult
  | [] => ⟨0, 0, 0⟩
  | ib :: rest => brAdd (dispatchContribution f ib) (dispatchStats f rest)

theorem dispatchStats_new (f : ℕ → Except Unit BatchResult) :
    ∀ o, (dispatchStats f o).new_records
      = (o.map (fun ib => (dispatchContribution f ib).new_records)).sum := by
  intro o
  induction o with
  | nil => rfl
  | cons ib rest ih => simp [dispatchStats, brAdd, ih]

theorem dispatchStats_updated (f : ℕ → Except Unit BatchResult) :
    ∀ o, (dispatchStats f o).updated_records
      = (o.map (fun ib => (dispatchContribution f ib).updated_records)).sum := by
  intro o
  induction o with
  | nil => rfl
  | cons ib rest ih => simp [dispatchStats, brAdd, ih]

theorem dispatchStats_failed (f : ℕ → Except Unit BatchResult) :
    ∀ o, (dispatchStats f o).failed_records
      = (o.map (fun ib => (dispatchContribution f ib).failed_records)).sum := by
  intro o
  induction o with
  | nil => rfl
  | cons ib rest ih => simp [dispatchStats, brAdd, ih]

/-- The batch totals are invariant under the completion order. -/
theorem dispatchStats_perm (f : ℕ → Except Unit BatchResult)
    (o1 o2 : List (ℕ × List Dict)) (h : List.Perm o1 o2) :
    dispatchStats f o1 = dispatchStats f o2 := by
  have hn := dispatchStats_new f o1
  have hu := dispatchStats_updated f o1
  have hf := dispatchStats_failed f o1
  have hn2 := dispatchStats_new f o2
  have hu2 := dispatchStats_updated f o2
  have hf2 := dispatchStats_failed f o2
  cases hs1 : dispatchStats f o1 with
  | mk a b c =>
      cases hs2 : dispatchStats f o2 with
      | mk a2 b2 c2 =>
          rw [hs1] at hn hu hf
          rw [hs2] at hn2 hu2 hf2
          simp only at hn hu hf hn2 hu2 hf2
          congr 1
          · rw [hn, hn2]
            exact (h.map _).sum_eq
          · rw [hu, hu2]
            exact (h.map _).sum_eq
          · rw [hf, hf2]
            exact (h.map _).sum_eq

/-- C7: 101 records with batch size 25 form exactly the five contiguous,
order-preserving batches of sizes 25, 25, 25, 25, 1; and when the third
batch raises while the other four succeed (with no per-record failures of
their own), the final statistics count exactly the third batch's 25 records
as failed and preserve the new/updated counts of the other four batches,
whatever order the batch futures complete in. -/
theorem write_batch_dispatch_101
    (data : List Dict) (hlen : data.length = 101)
    (f : ℕ → Except Unit BatchResult) (c0 c1 c3 c4 : BatchResult)
    (h0 : f 0 = Except.ok c0) (h1 : f 1 = Except.ok c1)
    (h2 : f 2 = Except.error ())
    (h3 : f 3 = Except.ok c3) (h4 : f 4 = Except.ok c4)
    (hf0 : c0.failed_records = 0) (hf1 : c1.failed_records = 0)
    (hf3 : c3.failed_records = 0) (hf4 : c4.failed_records = 0) :
    (makeBatches data 25).map List.length = [25, 25, 25, 25, 1]
    ∧ (makeBatches data 25).flatten = data
    ∧ ∀ order, List.Perm order (enumBatches 0 (makeBatches data 25)) →
        dispatchStats f order
          = ⟨c0.new_records + c1.new_records + c3.new_records + c4.new_records,
             c0.updated_records + c1.updated_records + c3.updated_records + c4.updated_records,
             25⟩ := by
  have hne : data ≠ [] := by
    intro h
    rw [h] at hlen
    cases hlen
  have hd1 : (data.drop 25).length = 76 := by rw [List.length_drop, hlen]
  have hd2 : ((data.drop 25).drop 25).length = 51 := by rw [List.length_drop, hd1]
  have hd3 : (((data.drop 25).drop 25).drop 25).length = 26 := by
    rw [List.length_drop, hd2]
  have hd4 : ((((data.drop 25).drop 25).drop 25).drop 25).length = 1 := by
    rw [List.length_drop, hd3]
  have hd5 : (((((data.drop 25).drop 25).drop 25).drop 25).drop 25).length = 0 := by
    rw [List.length_drop, hd4]
  have neOf : ∀ (l : List Dict), l.length ≠ 0 → l ≠ [] := by
    intro l h hl
    rw [hl] at h
    exact h rfl
  have e1 := makeBatches_cons data 25 (by omega) hne
  have e2 := makeBatches_cons (data.drop 25) 25 (by omega) (neOf _ (by omega))
  have e3 := makeBatches_cons ((data.drop 25).drop 25) 25 (by omega) (neOf _ (by omega))
  have e4 := makeBatches_cons (((data.drop 25).drop 25).drop 25) 25 (by omega)
    (neOf _ (by omega))
  have e5 := makeBatches_cons ((((data.drop 25).drop 25).drop 25).drop 25) 25 (by omega)
    (neOf _ (by omega))
  have h5nil : ((((data.drop 25).drop 25).drop 25).drop 25).drop 25 = [] :=
    List.length_eq_zero.mp hd5
  have eb : makeBatches data 25
      = [data.take 25, (data.drop 25).take 25, ((data.drop 25).drop 25).take 25,
         (((data.drop 25).drop 25).drop 25).take 25,
         ((((data.drop 25).drop 25).drop 25).drop 25).take 25] := by
    rw [e1, e2, e3, e4, e5, h5nil, makeBatches_nil]
  have t1 : (data.take 25).length = 25 := by
    simp only [List.length_take, hlen]
    omega
  have t2 : ((data.drop 25).take 25).length = 25 := by
    simp only [List.length_take, hd1]
    omega
  have t3 : (((data.drop 25).drop 25).take 25).length = 25 := by
    simp only [List.length_take, hd2]
    omega
  have t4 : ((((data.drop 25).drop 25).drop 25).take 25).length = 25 := by
    simp only [List.length_take, hd3]
    omega
  have t5 : (((((data.drop 25).drop 25).drop 25).drop 25).take 25).length = 1 := by
    simp only [List.length_take, hd4]
    omega
  refine ⟨?_, ?_, ?_⟩
  · rw [eb]
    simp only [List.map_cons, List.map_nil]
    rw [t1, t2, t3, t4, t5]
  · exact makeBatches_join 25 (by omega) data
  · intro order hperm
    rw [dispatchStats_perm f order _ hperm, eb]
    simp [enumBatches, dispatchStats, dispatchContribution, brAdd,
      h0, h1, h2, h3, h4, hf0, hf1, hf3, hf4, t3]
    omega

/-- Witness for C7 at a concrete 101-record input and concrete batch
outcomes. -/
theorem write_batch_dispatch_101_witness :
    (makeBatches (List.replicate 101 ([] : Dict)) 25).map List.length
      = [25, 25, 25, 25, 1]
    ∧ (makeBatches (List.replicate 101 ([] : Dict)) 25).flatten
      = List.replicate 101 ([] : Dict)
    ∧ ∀ order,
        List.Perm order (enumBatches 0 (makeBatches (List.replicate 101 ([] : Dict)) 25)) →
        dispatchStats
          (fun i => if i = 2 then Except.error () else Except.ok ⟨i + 1, i + 2, 0⟩)
          order
          = ⟨1 + 2 + 4 + 5, 2 + 3 + 5 + 6, 25⟩ := by
  exact write_batch_dispatch_101
    (List.replicate 101 ([] : Dict)) (by decide)
    (fun i => if i = 2 then Except.error () else Except.ok ⟨i + 1, i + 2, 0⟩)
    ⟨1, 2, 0⟩ ⟨2, 3, 0⟩ ⟨4, 5, 0⟩ ⟨5, 6, 0⟩
    rfl rfl rfl rfl rfl
    (by decide) (by decide) (by decide) (by decide)

/-- The two kinds of store failure the writer can see: a botocore
ClientError (permission errors, bad requests) and any other exception
(network failures and the like). -/
inductive StoreErr where
  | clientError
  | otherError
  deriving DecidableEq

/-- The external key-value store, as an oracle: a point read keyed by
paper_id and a point write of a converted item. -/
structure StoreOracle where
  get : Value → Except StoreErr (Option Dict)
  put : Dict → Except StoreErr Unit

/-- What one store operation observable from outside looks like. -/
inductive StoreOp where
  | getOp (pid : Value)
  | putOp (item : Dict)
  deriving DecidableEq

/-- PersistenceWriter._get_existing_record (writer.py lines 244 to 263): a
ClientError from the point read is caught, logged and turned into None (the
record then looks new); any other exception propagates. -/
def getExistingRecord (o : StoreOracle) (pid : Value) : Except StoreErr (Option Dict) :=
  match o.get pid with
  | Except.error StoreErr.clientError => Except.ok Option.none
  | res => res

/-- One iteration of the record loop of PersistenceWriter._process_batch
(writer.py lines 214 to 237), with its store-operation trace: a missing or
falsy paper_id counts as failed without touching the store; a propagated
read error, a merge/conversion exception, or a write error each count the
record as failed; otherwise the record counts as new (no truthy prior
record) or updated (merged over the existing one). -/
def processOne (o : StoreOracle) (rec : Dict) : BatchResult × List StoreOp :=
  if truthy (pyGet rec "paper_id") = false then (⟨0, 0, 1⟩, [])
  else
    match getExistingRecord o (pyGet rec "paper_id") with
    | Except.error _ => (⟨0, 0, 1⟩, [StoreOp.getOp (pyGet rec "paper_id")])
    | Except.ok (some ex) =>
        if ex.isEmpty then
          match convertTypesForDynamoDB rec with
          | Option.none => (⟨0, 0, 1⟩, [StoreOp.getOp (pyGet rec "paper_id")])
          | some item =>
              match o.put item with
              | Except.ok _ =>
                  (⟨1, 0, 0⟩, [StoreOp.getOp (pyGet rec "paper_id"), StoreOp.putOp item])
              | Except.error _ =>
                  (⟨0, 0, 1⟩, [StoreOp.getOp (pyGet rec "paper_id"), StoreOp.putOp item])
        else
          match mergeRecords ex rec with
          | Option.none => (⟨0, 0, 1⟩, [StoreOp.getOp (pyGet rec "paper_id")])
          | some merged =>
              match convertTypesForDynamoDB merged with
              | Option.none => (⟨0, 0, 1⟩, [StoreOp.getOp (pyGet rec "paper_id")])
              | some item =>
                  match o.put item with
                  | Except.ok _ =>
                      (⟨0, 1, 0⟩, [StoreOp.getOp (pyGet rec "paper_id"), StoreOp.putOp item])
                  | Except.error _ =>
                      (⟨0, 0, 1⟩, [StoreOp.getOp (pyGet rec "paper_id"), StoreOp.putOp item])
    | Except.ok Option.none =>
        match convertTypesForDynamoDB rec with
        | Option.none => (⟨0, 0, 1⟩, [StoreOp.getOp (pyGet rec "paper_id")])
        | some item =>
            match o.put item with
            | Except.ok _ =>
                (⟨1, 0, 0⟩, [StoreOp.getOp (pyGet rec "paper_id"), StoreOp.putOp item])
            | Except.error _ =>
                (⟨0, 0, 1⟩, [StoreOp.getOp (pyGet rec "paper_id"), StoreOp.putOp item])

/-- PersistenceWriter._process_batch (writer.py lines 198 to 242): every
record of the batch is processed in order whatever happened to the records
before it, and the counts accumulate. -/
def processBatch (o : StoreOracle) : List Dict → BatchResult × List StoreOp
  | [] => (⟨0, 0, 0⟩, [])
  | rec :: rest =>
      (brAdd (processOne o rec).1 (processBatch o rest).1,
       (processOne o rec).2 ++ (processBatch o rest).2)

/-- C9, amended: a failing point WRITE, and a point-read failure other than
a ClientError, are each counted as one failed record, and the batch always
continues with its remaining records (the counts of a batch are the sum of
the head record's outcome and the rest's).  A ClientError on the point read,
however, is swallowed by _get_existing_record and does NOT count the record
as failed: the record is treated as new (see the counterexample). -/
theorem processBatch_store_failures :
    (∀ (o : StoreOracle) (rec : Dict) (rest : List Dict),
        processBatch o (rec :: rest)
          = (brAdd (processOne o rec).1 (processBatch o rest).1,
             (processOne o rec).2 ++ (processBatch o rest).2))
    ∧ (∀ (o : StoreOracle) (rec : Dict),
        truthy (pyGet rec "paper_id") = true →
        o.get (pyGet rec "paper_id") = Except.error StoreErr.otherError →
        (processOne o rec).1 = ⟨0, 0, 1⟩)
    ∧ (∀ (o : StoreOracle) (rec : Dict) (item : Dict) (e : StoreErr),
        truthy (pyGet rec "paper_id") = true →
        o.get (pyGet rec "paper_id") = Except.ok Option.none →
        convertTypesForDynamoDB rec = some item →
        o.put item = Except.error e →
        (processOne o rec).1 = ⟨0, 0, 1⟩)
    ∧ (∀ (o : StoreOracle) (rec ex merged item : Dict) (e : StoreErr),
        truthy (pyGet rec "paper_id") = true →
        o.get (pyGet rec "paper_id") = Except.ok (some ex) → ex ≠ [] →
        mergeRecords ex rec = some merged →
        convertTypesForDynamoDB merged = some item →
        o.put item = Except.error e →
        (processOne o rec).1 = ⟨0, 0, 1⟩) := by
  refine ⟨?_, ?_, ?_, ?_⟩
  · intro o rec rest
    rfl
  · intro o rec hpid hget
    simp [processOne, getExistingRecord, hpid, hget]
  · intro o rec item e hpid hget hconv hput
    simp [processOne, getExistingRecord, hpid, hget, hconv, hput]
  · intro o rec ex merged item e hpid hget hex hmerge hconv hput
    simp [processOne, getExistingRecord, hpid, hget, hex, hmerge, hconv, hput,
      List.isEmpty_iff]

/-- Witness for C9 (amended) at concrete oracles and records: a write
failure is one failed record, and the batch head/tail sum law at a concrete
batch. -/
theorem processBatch_store_failures_witness :
    processBatch
      ⟨fun _ => Except.ok Option.none, fun _ => Except.error StoreErr.otherError⟩
      ([("paper_id", .str "p1")] :: [[("paper_id", .str "p2")]])
      = (brAdd
          (processOne
            ⟨fun _ => Except.ok Option.none, fun _ => Except.error StoreErr.otherError⟩
            [("paper_id", .str "p1")]).1
          (processBatch
            ⟨fun _ => Except.ok Option.none, fun _ => Except.error StoreErr.otherError⟩
            [[("paper_id", .str "p2")]]).1,
         (processOne
            ⟨fun _ => Except.ok Option.none, fun _ => Except.error StoreErr.otherError⟩
            [("paper_id", .str "p1")]).2
          ++ (processBatch
               ⟨fun _ => Except.ok Option.none, fun _ => Except.error StoreErr.otherError⟩
               [[("paper_id", .str "p2")]]).2)
    ∧ (processOne
        ⟨fun _ => Except.ok Option.none, fun _ => Except.error StoreErr.otherError⟩
        [("paper_id", .str "p1")]).1 = ⟨0, 0, 1⟩ := by
  constructor
  · exact processBatch_store_failures.1
      ⟨fun _ => Except.ok Option.none, fun _ => Except.error StoreErr.otherError⟩
      [("paper_id", .str "p1")] [[("paper_id", .str "p2")]]
  · exact processBatch_store_failures.2.2.1
      ⟨fun _ => Except.ok Option.none, fun _ => Except.error StoreErr.otherError⟩
      [("paper_id", .str "p1")] [("paper_id", .str "p1")] StoreErr.otherError
      (by decide) rfl (by simp [convertTypesForDynamoDB]) rfl

/-- Counterexample for C9 as frozen: a permission-style ClientError on the
point read is NOT counted as failed - _get_existing_record swallows it,
the record is treated as new, and the batch statistics count it as one new
record. -/
theorem processOne_clientError_read_not_failed :
    (processOne
      ⟨fun _ => Except.error StoreErr.clientError, fun _ => Except.ok ()⟩
      [("paper_id", .str "p1")]).1 = ⟨1, 0, 0⟩
    ∧ (⟨1, 0, 0⟩ : BatchResult) ≠ ⟨0, 0, 1⟩ := by
  constructor
  · simp only [processOne, getExistingRecord, convertTypesForDynamoDB]
    decide
  · decide

/-- The batch lists processed by one write call, aggregated in order with
their store-operation traces (the totals are order-independent sums, as
dispatchStats_perm shows for the thread-pool handling order). -/
def runBatches (o : StoreOracle) : List (List Dict) → BatchResult × List StoreOp
  | [] => (⟨0, 0, 0⟩, [])
  | b :: bs =>
      (brAdd (processBatch o b).1 (runBatches o bs).1,
       (processBatch o b).2 ++ (runBatches o bs).2)

/-- PersistenceWriter.write (writer.py lines 62 to 196), with the
wall-clock processing time as the parameter pt: an empty input short-circuits
at line 73 and returns only status/new_records/updated_records, performing no
store operation at all; a non-empty input batches the records, processes
them, and returns the five-key statistics dictionary. -/
def writeModel (o : StoreOracle) (pt : Value) (data : List Dict) :
    Dict × List StoreOp :=
  if data.isEmpty then
    ([("status", .str "success"), ("new_records", .num 0), ("updated_records", .num 0)],
     [])
  else
    ([("status", .str "success"),
      ("new_records", .num ((runBatches o (makeBatches data 25)).1.new_records : ℚ)),
      ("updated_records", .num ((runBatches o (makeBatches data 25)).1.updated_records : ℚ)),
      ("failed_records", .num ((runBatches o (makeBatches data 25)).1.failed_records : ℚ)),
      ("processing_time", pt)],
     (runBatches o (makeBatches data 25)).2)

/-- C10: writing an empty record list returns success with zero new and
updated records, performs no store lookup or write, and the early return
omits the failed_records and processing_time keys that the normal return
path carries. -/
theorem writeModel_empty_early_return :
    (∀ (o : StoreOracle) (pt : Value),
        writeModel o pt []
          = ([("status", .str "success"), ("new_records", .num 0),
              ("updated_records", .num 0)], []))
    ∧ (∀ (o : StoreOracle) (pt : Value),
        dictGet (writeModel o pt []).1 "failed_records" = Option.none
        ∧ dictGet (writeModel o pt []).1 "processing_time" = Option.none
        ∧ (writeModel o pt []).2 = [])
    ∧ (∀ (o : StoreOracle) (pt : Value) (data : List Dict), data ≠ [] →
        (writeModel o pt data).1.map Prod.fst
          = ["status", "new_records", "updated_records", "failed_records",
             "processing_time"]) := by
  refine ⟨?_, ?_, ?_⟩
  · intro o pt
    rfl
  · intro o pt
    exact ⟨rfl, rfl, rfl⟩
  · intro o pt data hdata
    simp [writeModel, hdata]

/-- Witness for C10 at a concrete oracle and non-empty input. -/
theorem writeModel_empty_early_return_witness :
    writeModel ⟨fun _ => Except.ok Option.none, fun _ => Except.ok ()⟩ (.num 1) []
      = ([("status", .str "success"), ("new_records", .num 0),
          ("updated_records", .num 0)], [])
    ∧ (writeModel ⟨fun _ => Except.ok Option.none, fun _ => Except.ok ()⟩ (.num 1)
        [[("paper_id", .str "p1")]]).1.map Prod.fst
      = ["status", "new_records", "updated_records", "failed_records",
         "processing_time"] := by
  constructor
  · exact writeModel_empty_early_return.1
      ⟨fun _ => Except.ok Option.none, fun _ => Except.ok ()⟩ (.num 1)
  · exact writeModel_empty_early_return.2.2
      ⟨fun _ => Except.ok Option.none, fun _ => Except.ok ()⟩ (.num 1)
      [[("paper_id", .str "p1")]] (by decide)
